import Mathlib

/-!
Verification development for the AI SEO content assistant repository.

The repository is a TypeScript single-page application plus one serverless
endpoint.  The definitions below are a shallow embedding of the parts of the
source the claims refer to:

* `safeJsonParse` and the per-stage result normalizers from the serverless
  handler file (`api/gemini.ts`, given as `src/unnamed/part_000`),
* the `handler` dispatch function from the same file,
* the UI state handlers of `PreparationStep`, `CreationStep` and
  `AnalysisStep`,
* the `downloadCSV` string builder of `AnalysisStep.tsx`.

JavaScript's `JSON.parse` is embedded as a fueled recursive-descent parser
over `List Char` (`parseVal` and friends); JSON numbers are kept as their
lexemes, since no claim compares numerals written differently.
-/

/-- JSON whitespace as accepted by `JSON.parse` between tokens:
space, horizontal tab, line feed, carriage return. -/
def jsonWs (c : Char) : Bool :=
  c = ' ' || c = '\t' || c = '\n' || c = '\r'

/-- Whitespace as matched by the JavaScript regex class `\s` (used in the
`\s*` of `safeJsonParse`'s fence-stripping regex): the JSON whitespace
characters plus vertical tab, form feed, NBSP, the Unicode space
separators, line/paragraph separators and the BOM. -/
def jsRegexWs (c : Char) : Bool :=
  c.toNat ∈ ([9, 10, 11, 12, 13, 32, 160, 5760, 8232, 8233, 8239, 8287, 12288, 65279] : List Nat)
    || (8192 ≤ c.toNat && c.toNat ≤ 8202)

/-- The JSON value model.  Numbers are kept as their source lexeme. -/
inductive Json where
  | null
  | bool (b : Bool)
  | num (lex : String)
  | str (s : String)
  | arr (elems : List Json)
  | obj (fields : List (String × Json))

/-- Decimal digit test, phrased on code points. -/
def isDigitChar (c : Char) : Bool :=
  48 ≤ c.toNat && c.toNat ≤ 57

/-- Hexadecimal digit value, for `\uXXXX` escapes. -/
def hexVal (c : Char) : Option Nat :=
  if '0' ≤ c ∧ c ≤ '9' then some (c.toNat - '0'.toNat)
  else if 'a' ≤ c ∧ c ≤ 'f' then some (c.toNat - 'a'.toNat + 10)
  else if 'A' ≤ c ∧ c ≤ 'F' then some (c.toNat - 'A'.toNat + 10)
  else none

/-- One escape sequence after a backslash inside a JSON string literal:
the decoded character and the input following the sequence. -/
def readEscape : List Char → Option (Char × List Char)
  | [] => none
  | e :: cs2 =>
    if e = '"' then some ('"', cs2)
    else if e = '\\' then some ('\\', cs2)
    else if e = '/' then some ('/', cs2)
    else if e = 'b' then some ('\x08', cs2)
    else if e = 'f' then some ('\x0c', cs2)
    else if e = 'n' then some ('\n', cs2)
    else if e = 'r' then some ('\x0d', cs2)
    else if e = 't' then some ('\t', cs2)
    else if e = 'u' then
      match cs2 with
      | h1 :: h2 :: h3 :: h4 :: cs3 =>
        match hexVal h1, hexVal h2, hexVal h3, hexVal h4 with
        | some a, some b, some c2, some d =>
          some (Char.ofNat (a * 4096 + b * 256 + c2 * 16 + d), cs3)
        | _, _, _, _ => none
      | _ => none
    else none

/-- Body of a JSON string literal, after the opening quote: decodes escapes,
rejects raw control characters, and stops at the closing quote.  Returns the
decoded string and the input following the closing quote.  `fuel` bounds the
recursion; callers pass the input length plus one, which always suffices
since every step consumes at least one character. -/
def parseStringBody : Nat → List Char → List Char → Option (String × List Char)
  | 0, _, _ => none
  | fuel + 1, acc, cs =>
    match cs with
    | [] => none
    | c :: cs1 =>
      if c = '"' then some (String.mk acc.reverse, cs1)
      else if c = '\\' then
        match readEscape cs1 with
        | some (x, cs2) => parseStringBody fuel (x :: acc) cs2
        | none => none
      else if c.toNat < 32 then none
      else parseStringBody fuel (c :: acc) cs1

/-- A maximal run of decimal digits: returns the digits and the rest. -/
def parseDigits : List Char → List Char × List Char
  | [] => ([], [])
  | c :: cs =>
    if isDigitChar c then
      let (ds, r) := parseDigits cs
      (c :: ds, r)
    else ([], c :: cs)

/-- Optional fraction part `.[0-9]+` of a JSON number. -/
def parseFrac : List Char → Option (List Char × List Char)
  | '.' :: cs =>
    match parseDigits cs with
    | ([], _) => none
    | (ds, r) => some ('.' :: ds, r)
  | cs => some ([], cs)

/-- Optional exponent part `[eE][+-]?[0-9]+` of a JSON number. -/
def parseExp : List Char → Option (List Char × List Char)
  | [] => some ([], [])
  | c :: cs =>
    if c = 'e' ∨ c = 'E' then
      let (sgn, cs1) :=
        match cs with
        | s :: r => if s = '+' ∨ s = '-' then ([s], r) else (([] : List Char), s :: r)
        | [] => ([], [])
      match parseDigits cs1 with
      | ([], _) => none
      | (ds, r) => some (c :: (sgn ++ ds), r)
    else some ([], c :: cs)

/-- A JSON number token, per the `JSON.parse` grammar
`-? (0 | [1-9][0-9]*) frac? exp?`.  Returns the lexeme and the rest. -/
def parseNumber (cs : List Char) : Option (List Char × List Char) :=
  let (minus, cs1) :=
    match cs with
    | '-' :: r => (['-'], r)
    | _ => (([] : List Char), cs)
  match cs1 with
  | [] => none
  | c :: r =>
    if c = '0' then
      match parseFrac r with
      | none => none
      | some (f, r2) =>
        match parseExp r2 with
        | none => none
        | some (e, r3) => some (minus ++ c :: (f ++ e), r3)
    else if isDigitChar c then
      let (ds, r1) := parseDigits r
      match parseFrac r1 with
      | none => none
      | some (f, r2) =>
        match parseExp r2 with
        | none => none
        | some (e, r3) => some (minus ++ c :: (ds ++ f ++ e), r3)
    else none

/-- Drop leading JSON whitespace. -/
def skipWs (cs : List Char) : List Char := cs.dropWhile jsonWs

mutual

/-- One JSON value, by first character, with `fuel` bounding recursion depth. -/
def parseVal : Nat → List Char → Option (Json × List Char)
  | 0, _ => none
  | fuel + 1, cs =>
    match cs with
    | [] => none
    | c :: rest =>
      if c = '"' then
        match parseStringBody (rest.length + 1) [] rest with
        | some (s, r) => some (.str s, r)
        | none => none
      else if c = '\x7b' then parseObjBody fuel (skipWs rest)
      else if c = '[' then parseArrBody fuel (skipWs rest)
      else if c = 't' then
        match rest with
        | 'r' :: 'u' :: 'e' :: r => some (.bool true, r)
        | _ => none
      else if c = 'f' then
        match rest with
        | 'a' :: 'l' :: 's' :: 'e' :: r => some (.bool false, r)
        | _ => none
      else if c = 'n' then
        match rest with
        | 'u' :: 'l' :: 'l' :: r => some (.null, r)
        | _ => none
      else if c = '-' ∨ isDigitChar c then
        match parseNumber (c :: rest) with
        | some (lex, r) => some (.num (String.mk lex), r)
        | none => none
      else none

/-- Array contents, positioned just after `[` and any whitespace. -/
def parseArrBody : Nat → List Char → Option (Json × List Char)
  | 0, _ => none
  | fuel + 1, cs =>
    match cs with
    | ']' :: r => some (.arr [], r)
    | _ =>
      match parseVal fuel cs with
      | some (v, r) => parseArrRest fuel [v] r
      | none => none

/-- Remaining array elements after at least one element was read. -/
def parseArrRest : Nat → List Json → List Char → Option (Json × List Char)
  | 0, _, _ => none
  | fuel + 1, acc, cs =>
    match skipWs cs with
    | ']' :: r => some (.arr acc.reverse, r)
    | ',' :: r =>
      match parseVal fuel (skipWs r) with
      | some (v, r2) => parseArrRest fuel (v :: acc) r2
      | none => none
    | _ => none

/-- Object contents, positioned just after the opening brace and whitespace. -/
def parseObjBody : Nat → List Char → Option (Json × List Char)
  | 0, _ => none
  | fuel + 1, cs =>
    match cs with
    | '\x7d' :: r => some (.obj [], r)
    | '"' :: r =>
      match parseStringBody (r.length + 1) [] r with
      | none => none
      | some (k, r1) =>
        match skipWs r1 with
        | ':' :: r2 =>
          match parseVal fuel (skipWs r2) with
          | none => none
          | some (v, r3) => parseObjRest fuel [(k, v)] r3
        | _ => none
    | _ => none

/-- Remaining object members after at least one member was read. -/
def parseObjRest : Nat → List (String × Json) → List Char → Option (Json × List Char)
  | 0, _, _ => none
  | fuel + 1, acc, cs =>
    match skipWs cs with
    | '\x7d' :: r => some (.obj acc.reverse, r)
    | ',' :: r =>
      match skipWs r with
      | '"' :: r1 =>
        match parseStringBody (r1.length + 1) [] r1 with
        | none => none
        | some (k, r2) =>
          match skipWs r2 with
          | ':' :: r3 =>
            match parseVal fuel (skipWs r3) with
            | none => none
            | some (v, r4) => parseObjRest fuel ((k, v) :: acc) r4
          | _ => none
      | _ => none
    | _ => none

end

/-- Drop trailing JSON whitespace. -/
def trimRightWs (cs : List Char) : List Char :=
  (cs.reverse.dropWhile jsonWs).reverse

/-- `JSON.parse` on a character list: strip surrounding whitespace, read one
value, and require that it spans the whole remaining text. -/
def parseJsonChars (cs0 : List Char) : Option Json :=
  let cs := trimRightWs (cs0.dropWhile jsonWs)
  match parseVal (cs.length + 1) cs with
  | some (v, rest) => if rest.isEmpty then some v else none
  | none => none

/-- `JSON.parse` on a string. -/
def parseJson (s : String) : Option Json := parseJsonChars s.toList

/-- The fence strip of `safeJsonParse`, i.e. the effect of
`jsonString.replace(/^```json\s*|```$/g, '')`: remove a leading
` ```json `-plus-whitespace marker if present, and remove a trailing
` ``` ` marker if present (either at the very end, or — since `$` also
matches before a final newline — just before a final line feed). -/
def cleanChars (cs : List Char) : List Char :=
  let cs1 :=
    if "```json".toList.isPrefixOf cs then (cs.drop 7).dropWhile jsRegexWs else cs
  if "```".toList.isSuffixOf cs1 then cs1.take (cs1.length - 3)
  else if ("```" ++ "\n").toList.isSuffixOf cs1 then cs1.take (cs1.length - 4) ++ ['\n']
  else cs1

/-- `safeJsonParse` from `api/gemini.ts`: strip the optional code fence, then
`JSON.parse`; any parse failure becomes the null sentinel (`none`). -/
def safeJsonParse (s : String) : Option Json :=
  parseJsonChars (cleanChars s.toList)

/-- A string wrapped in the leading/trailing code-fence markers the oracle
sometimes emits around its JSON answer. -/
def wrapFence (s : String) : String :=
  "```json" ++ "\n" ++ s ++ "\n" ++ "```"

/-! ## JavaScript value helpers used by the normalizers -/

/-- Whether the digits of a JSON number lexeme before any exponent marker are
all zero, i.e. whether the number denotes JavaScript's falsy `0`/`-0`. -/
def numLexIsZero (lex : String) : Bool :=
  (lex.toList.takeWhile (fun c => ¬(c = 'e' ∨ c = 'E'))).all
    (fun c => ¬('1' ≤ c ∧ c ≤ '9'))

/-- JavaScript truthiness of a value produced by `JSON.parse`:
`null`, `false`, `0` and `""` are falsy; every array and object is truthy. -/
def jsTruthy : Json → Bool
  | .null => false
  | .bool b => b
  | .num lex => ¬numLexIsZero lex
  | .str s => ¬s.isEmpty
  | .arr _ => true
  | .obj _ => true

/-- Property lookup `value[key]` on a parsed JSON value: on an object the
last binding of the key wins (JavaScript object-literal semantics); on any
other value the keys the code uses are absent (`undefined`, i.e. `none`). -/
def jsField : Json → String → Option Json
  | .obj fs, k => fs.foldl (fun acc p => if p.1 = k then some p.2 else acc) none
  | _, _ => none

/-- Truthiness of `value[key]`, with `undefined` falsy. -/
def truthyField (j : Json) (k : String) : Bool :=
  match jsField j k with
  | some v => jsTruthy v
  | none => false

/-- `Array.isArray`. -/
def isJsArray : Json → Bool
  | .arr _ => true
  | _ => false

/-- `typeof value === 'object'` for a value produced by `JSON.parse`:
true exactly for `null`, arrays and objects. -/
def jsTypeofObject : Json → Bool
  | .null => true
  | .arr _ => true
  | .obj _ => true
  | _ => false

/-- `response.text || ''`: the oracle's text with `undefined` (and hence also
the empty string) collapsed to `""`. -/
def orEmpty : Option String → String
  | none => ""
  | some s => s

/-! ## Per-stage result normalization (`api/gemini.ts`)

Each structured stage parses the oracle's text with `safeJsonParse` and then
applies the truthiness checks written in its `return` line. -/

/-- `analyzeKeywords` result line:
`(result && result.keywordAnalysis && result.summary) ? result : null`. -/
def analyzeKeywordsNormalize (text : Option String) : Option Json :=
  match safeJsonParse (orEmpty text) with
  | none => none
  | some j =>
    if jsTruthy j && truthyField j "keywordAnalysis" && truthyField j "summary"
    then some j else none

/-- `findTopCompetitorArticles` result line:
`(result && Array.isArray(result)) ? result : null`. -/
def findTopCompetitorArticlesNormalize (text : Option String) : Option Json :=
  match safeJsonParse (orEmpty text) with
  | none => none
  | some j => if jsTruthy j && isJsArray j then some j else none

/-- `createCompositeArticle` result line:
`(result && typeof result === 'object' && !Array.isArray(result) && result.outline) ? result : null`. -/
def createCompositeArticleNormalize (text : Option String) : Option Json :=
  match safeJsonParse (orEmpty text) with
  | none => none
  | some j =>
    if jsTruthy j && jsTypeofObject j && !isJsArray j && truthyField j "outline"
    then some j else none

/-- `generateSocialMediaPosts` result line:
`(result && result.x && result.facebook && result.linkedin && result.hashtags) ? result : null`. -/
def generateSocialMediaPostsNormalize (text : Option String) : Option Json :=
  match safeJsonParse (orEmpty text) with
  | none => none
  | some j =>
    if jsTruthy j && truthyField j "x" && truthyField j "facebook"
        && truthyField j "linkedin" && truthyField j "hashtags"
    then some j else none

/-- `analyzePerformanceData` result line:
`(result && result.summary && result.actionPlan) ? result : null`. -/
def analyzePerformanceDataNormalize (text : Option String) : Option Json :=
  match safeJsonParse (orEmpty text) with
  | none => none
  | some j =>
    if jsTruthy j && truthyField j "summary" && truthyField j "actionPlan"
    then some j else none

/-- `generateFullArticle` / `reviseFullArticle` result line:
`return response.text || null` — the free-text stages return the raw text,
with an absent or empty text collapsed to the null sentinel. -/
def freeTextResult (text : Option String) : Option String :=
  match text with
  | none => none
  | some s => if s = "" then none else some s

/-! ## Transport boundary (`handler` in `api/gemini.ts`) -/

/-- JavaScript truthiness of an environment variable: set and non-empty. -/
def envSet : Option String → Bool
  | none => false
  | some s => ¬s.isEmpty

/-- Outcome of awaiting a downstream orchestration function: either a value
(the op's `T | null` result, JSON-encoded) or a thrown exception message. -/
inductive OpOutcome where
  | ok (result : Option Json)
  | thrown (msg : String)

/-- Response body: `{data: ...}` or `{error: ...}`. -/
inductive HBody where
  | data (j : Option Json)
  | dataSuccess (b : Bool)
  | error (msg : String)

/-- An HTTP response: status code and JSON body. -/
structure HResp where
  status : Nat
  body : HBody

/-- The seven generation operations dispatched through the Gemini client. -/
def genOps : List String :=
  ["analyzeKeywords", "findTopCompetitorArticles", "createCompositeArticle",
   "generateFullArticle", "generateSocialMediaPosts", "reviseFullArticle",
   "analyzePerformanceData"]

/-- The serverless `handler`: method check, `verifyPassword` branch, `API_KEY`
check, then the `switch` over generation operations with its `default: 400`
and the surrounding `try`/`catch` producing 500 on a thrown exception.
`outcome` stands for what awaiting the dispatched call would produce. -/
def handler (method : String) (operation : String) (password : String)
    (appPassword : Option String) (apiKey : Option String)
    (outcome : OpOutcome) : HResp :=
  if method ≠ "POST" then ⟨405, .error "Method Not Allowed"⟩
  else if operation = "verifyPassword" then
    match appPassword with
    | none => ⟨200, .dataSuccess false⟩
    | some ap =>
      if ap.isEmpty then ⟨200, .dataSuccess false⟩
      else ⟨200, .dataSuccess (password = ap)⟩
  else if ¬envSet apiKey then
    ⟨500, .error "API_KEY environment variable not set on the server"⟩
  else if operation ∈ genOps then
    match outcome with
    | .ok j => ⟨200, .data j⟩
    | .thrown m => ⟨500, .error ("An internal server error occurred: " ++ m)⟩
  else ⟨400, .error "Invalid operation specified."⟩

/-! ## Data model (`src/types.ts`) -/

/-- A competitor article record. -/
structure CompetitorArticle where
  title : String
  url : String
  summary : String
deriving DecidableEq

/-- One keyword row of the keyword-analysis response. -/
structure KeywordAnalysisResult where
  keyword : String
  searchVolume : String
  difficulty : String
  currentRank : String
  recommendation : String
deriving DecidableEq

/-- The keyword-analysis response. -/
structure KeywordAnalysisResponse where
  keywordAnalysis : List KeywordAnalysisResult
  summary : String
deriving DecidableEq

/-- One outline section of an article draft. -/
structure DraftSection where
  heading : String
  points : List String
deriving DecidableEq

/-- The outline of an article draft. -/
structure DraftOutline where
  title : String
  sections : List DraftSection
deriving DecidableEq

/-- An article draft: outline plus introduction. -/
structure ArticleDraft where
  outline : DraftOutline
  introduction : String
deriving DecidableEq

/-- A full article is an opaque Markdown text blob. -/
abbrev FullArticle := String

/-- Social media posts derived from a full article. -/
structure SocialMediaPosts where
  x : String
  facebook : String
  linkedin : String
  hashtags : List String
deriving DecidableEq

/-- The key-metric block of a performance analysis. -/
structure KeyMetrics where
  monthlyPV : String
  users : String
  cvr : String
  bounceRate : String
deriving DecidableEq

/-- One traffic-source row.  The JavaScript `number` is modelled as `Int`;
no claim depends on fractional values or float rendering. -/
structure TrafficSource where
  source : String
  percentage : Int
deriving DecidableEq

/-- One keyword-performance row. -/
structure KeywordPerformance where
  keyword : String
  estimatedPV : Int
deriving DecidableEq

/-- One action-plan row. -/
structure ActionPlanItem where
  action : String
  justification : String
deriving DecidableEq

/-- A performance analysis record. -/
structure PerformanceAnalysis where
  summary : String
  keyMetrics : KeyMetrics
  trafficSources : List TrafficSource
  keywordPerformance : List KeywordPerformance
  actionPlan : List ActionPlanItem
deriving DecidableEq

/-- JavaScript `String.prototype.trim`: strip the `\\s`-class whitespace
from both ends. -/
def trimJs (s : String) : String :=
  String.mk (((s.toList.dropWhile jsRegexWs).reverse.dropWhile jsRegexWs).reverse)

/-- JavaScript `String.prototype.startsWith`. -/
def startsWithJs (s pre : String) : Bool :=
  pre.toList.isPrefixOf s.toList

/-! ## UI stage handlers

Each `handle...` callback is embedded as a state transformer.  The outcome of
the awaited service call is a parameter: `.ok v` for a resolved promise with
value `v` (the service returns `T | null`), `.thrown m` for a rejected one. -/

/-- Outcome of awaiting a `geminiService` call from the UI. -/
inductive CallOutcome (α : Type) where
  | ok (v : Option α)
  | thrown (msg : String)
deriving DecidableEq

/-- The awaited call failed: it resolved to the null sentinel or threw. -/
def CallOutcome.failed {α : Type} : CallOutcome α → Prop
  | .ok none => True
  | .ok (some _) => False
  | .thrown _ => True

instance {α : Type} (o : CallOutcome α) : Decidable o.failed := by
  cases o with
  | ok v => cases v with
    | none => exact isTrue trivial
    | some _ => exact isFalse id
  | thrown _ => exact isTrue trivial

/-- State of `CreationStep` (`Header.tsx`, second component). -/
structure CreationState where
  draft : Option ArticleDraft
  fullArticle : Option FullArticle
  socialPosts : Option SocialMediaPosts
  isGenerating : Bool
  isRevising : Bool
  revisionPrompt : String
  error : Option String
deriving DecidableEq

/-- `handleGenerateArticle`: guard on a present draft, clear error, article,
social posts and revision prompt, generate the article, and only on a
non-null article issue the social-post request (second component of the
result records whether that request was issued).  A null social result is
only logged; a thrown exception from either call lands in the `catch`. -/
def handleGenerateArticle (s : CreationState)
    (artOutcome : CallOutcome FullArticle)
    (socOutcome : CallOutcome SocialMediaPosts) : CreationState × Bool :=
  if s.draft = none then (s, false)
  else
    let s1 : CreationState :=
      { s with isGenerating := true, error := none, fullArticle := none,
               socialPosts := none, revisionPrompt := "" }
    match artOutcome with
    | .thrown _ =>
      ({ s1 with error := some "記事の生成に失敗しました。後でもう一度お試しください。",
                 isGenerating := false }, false)
    | .ok none =>
      ({ s1 with error := some "記事の生成中にエラーが発生しました。",
                 isGenerating := false }, false)
    | .ok (some art) =>
      let s2 := { s1 with fullArticle := some art }
      match socOutcome with
      | .thrown _ =>
        ({ s2 with error := some "記事の生成に失敗しました。後でもう一度お試しください。",
                   isGenerating := false }, true)
      | .ok none => ({ s2 with isGenerating := false }, true)
      | .ok (some posts) =>
        ({ s2 with socialPosts := some posts, isGenerating := false }, true)

/-- `handleReviseArticle`: guard on a present article and a non-blank
revision prompt, clear the error and the now-outdated social posts, then
revise; on success replace the article and clear the prompt. -/
def handleReviseArticle (s : CreationState)
    (outcome : CallOutcome FullArticle) : CreationState :=
  if s.fullArticle = none ∨ trimJs s.revisionPrompt = "" then s
  else
    let s1 : CreationState := { s with isRevising := true, error := none, socialPosts := none }
    match outcome with
    | .thrown _ =>
      { s1 with error := some "記事の修正に失敗しました。後でもう一度お試しください。",
                isRevising := false }
    | .ok none =>
      { s1 with error := some "記事の修正中にエラーが発生しました。",
                isRevising := false }
    | .ok (some art) =>
      { s1 with fullArticle := some art, revisionPrompt := "", isRevising := false }

/-- The busy stages of `PreparationStep`. -/
inductive PrepStage where
  | idle
  | analyzingKeywords
  | findingArticles
  | creatingDraft
deriving DecidableEq

/-- State of `PreparationStep` (`src/unnamed/part_003`). -/
structure PrepState where
  stage : PrepStage
  error : Option String
  userUrl : String
  competitorUrl1 : String
  competitorUrl2 : String
  keywordAnalysis : Option KeywordAnalysisResponse
  topic : String
  competitorArticles : Option (List CompetitorArticle)
deriving DecidableEq

/-- `handleAnalyzeKeywords`: guard on a non-blank user URL, clear the error
and the previous analysis, call the service, and commit or set an error.
(The code's `result && result.keywordAnalysis` check is a truthiness check
on an always-truthy array field of the typed result, so a resolved non-null
result always commits.)  The `finally` returns the stage to idle. -/
def handleAnalyzeKeywords (s : PrepState)
    (outcome : CallOutcome KeywordAnalysisResponse) : PrepState :=
  if trimJs s.userUrl = "" then
    { s with error := some "自社サイトのURLを入力してください。" }
  else
    let s1 : PrepState := { s with error := none, keywordAnalysis := none }
    match outcome with
    | .ok (some r) => { s1 with keywordAnalysis := some r, stage := .idle }
    | .ok none =>
      { s1 with error := some "キーワードの分析中にエラーが発生しました。", stage := .idle }
    | .thrown _ =>
      { s1 with error := some "キーワード分析に失敗しました。後で再試行してください。", stage := .idle }

/-- `handleFindArticles`: guard on a non-blank topic, clear the error and the
previous competitor articles, call the service, and commit or set an error. -/
def handleFindArticles (s : PrepState)
    (outcome : CallOutcome (List CompetitorArticle)) : PrepState :=
  if trimJs s.topic = "" then
    { s with error := some "トピックを選択または入力してください。" }
  else
    let s1 : PrepState := { s with error := none, competitorArticles := none }
    match outcome with
    | .ok (some r) => { s1 with competitorArticles := some r, stage := .idle }
    | .ok none =>
      { s1 with error := some "競合記事の分析中にエラーが発生しました。", stage := .idle }
    | .thrown _ =>
      { s1 with error := some "競合記事の分析に失敗しました。後で再試行してください。", stage := .idle }

/-- `handleCreateCompositeArticle`: guard on present competitor articles and
a truthy topic; on success hand the draft to `onDraftCreated` (second
component); on failure set an error and leave all other state as it was. -/
def handleCreateCompositeArticle (s : PrepState)
    (outcome : CallOutcome ArticleDraft) : PrepState × Option ArticleDraft :=
  if s.competitorArticles = none ∨ s.topic = "" then (s, none)
  else
    let s1 : PrepState := { s with error := none }
    match outcome with
    | .ok (some r) => ({ s1 with stage := .idle }, some r)
    | .ok none =>
      ({ s1 with error := some "複合記事の作成中にエラーが発生しました。", stage := .idle }, none)
    | .thrown _ =>
      ({ s1 with error := some "複合記事の作成に失敗しました。後で再試行してください。", stage := .idle }, none)

/-- State of `AnalysisStep` (`AnalysisStep.tsx`). -/
structure AnalysisState where
  isLoading : Bool
  error : Option String
  articleUrl : String
  socialUrl : String
  analysis : Option PerformanceAnalysis
deriving DecidableEq

/-- `handleGenerateReport`: guard on a non-blank URL starting with `http`,
clear the error and the previous analysis, call the service, and commit or
set an error. -/
def handleGenerateReport (s : AnalysisState)
    (outcome : CallOutcome PerformanceAnalysis) : AnalysisState :=
  if trimJs s.articleUrl = "" ∨ ¬startsWithJs s.articleUrl "http" then
    { s with error := some "有効な記事のURLを入力してください。" }
  else
    let s1 : AnalysisState := { s with error := none, isLoading := true, analysis := none }
    match outcome with
    | .ok (some r) => { s1 with analysis := some r, isLoading := false }
    | .ok none =>
      { s1 with error := some "分析レポートの生成中にエラーが発生しました。", isLoading := false }
    | .thrown _ =>
      { s1 with error := some "分析レポートの生成に失敗しました。後で再試行してください。", isLoading := false }

/-! ## CSV export (`downloadCSV` in `AnalysisStep.tsx`) -/

/-- `.replace(/"/g, '""')`: double every double-quote character. -/
def escQuotes (s : String) : String :=
  String.mk (s.toList.flatMap (fun c => if c = '"' then ['"', '"'] else [c]))

/-- The CSV text `downloadCSV` assembles (the `csvContent` accumulator),
section by section in source order. -/
def csvContent (d : PerformanceAnalysis) : String :=
  "data:text/csv;charset=utf-8,"
    ++ "Summary\n"
    ++ "\"" ++ escQuotes d.summary ++ "\"\n\n"
    ++ "Key Metrics\n"
    ++ "Metric,Value\n"
    ++ "Monthly PV," ++ d.keyMetrics.monthlyPV ++ "\n"
    ++ "Users," ++ d.keyMetrics.users ++ "\n"
    ++ "Conversion Rate," ++ d.keyMetrics.cvr ++ "\n"
    ++ "Bounce Rate," ++ d.keyMetrics.bounceRate ++ "\n\n"
    ++ "Traffic Sources\n"
    ++ "Source,Percentage\n"
    ++ String.join (d.trafficSources.map
        (fun ts => ts.source ++ "," ++ toString ts.percentage ++ "%\n"))
    ++ "\n"
    ++ "Keyword Performance\n"
    ++ "Keyword,Estimated PV\n"
    ++ String.join (d.keywordPerformance.map
        (fun kw => "\"" ++ escQuotes kw.keyword ++ "\"," ++ toString kw.estimatedPV ++ "\n"))
    ++ "\n"
    ++ "Action Plan\n"
    ++ "Action,Justification" ++ "\n"
    ++ String.intercalate "\n" (d.actionPlan.map
        (fun it => "\"" ++ escQuotes it.action ++ "\",\"" ++ escQuotes it.justification ++ "\""))

/-! ## Auxiliary predicates and concrete sample inputs -/

/-- Characters a JSON value can start with (the dispatch set of `parseVal`). -/
def goodStartChar (c : Char) : Bool :=
  c = '"' || c = '\x7b' || c = '[' || c = 't' || c = 'f' || c = 'n' || c = '-' || isDigitChar c

/-- Characters a JSON value can end with: closing quote, bracket or brace,
the last letter of `true`/`false`/`null`, or a digit. -/
def goodEndChar (c : Char) : Bool :=
  c = '"' || c = ']' || c = '\x7d' || c = 'e' || c = 'l' || isDigitChar c

/-- A nonempty character list ending in a character a JSON value can end
with. -/
def lastGood (l : List Char) : Prop :=
  ∃ c, l.getLast? = some c ∧ goodEndChar c = true

/-- Number of double-quote characters in a string. -/
def quoteCount (s : String) : Nat := s.toList.count '"'

/-- Oracle text for `analyzePerformanceData` that parses to an object with
`summary` and `actionPlan` but no `keyMetrics`, `trafficSources` or
`keywordPerformance`. -/
def perfMissingFieldsText : String :=
  "\x7b\"summary\":\"s\",\"actionPlan\":[1]\x7d"

/-- The value `perfMissingFieldsText` parses to. -/
def perfMissingFieldsVal : Json :=
  .obj [("summary", .str "s"), ("actionPlan", .arr [.num "1"])]

/-- Oracle text for `createCompositeArticle` whose outline has an empty
`sections` list. -/
def emptySectionsText : String :=
  "\x7b\"outline\":\x7b\"title\":\"t\",\"sections\":[]\x7d,\"introduction\":\"i\"\x7d"

/-- The value `emptySectionsText` parses to. -/
def emptySectionsVal : Json :=
  .obj [("outline", .obj [("title", .str "t"), ("sections", .arr [])]),
        ("introduction", .str "i")]

/-- A sample article draft. -/
def sampleDraft : ArticleDraft := ⟨⟨"A title", [⟨"Heading", ["point"]⟩]⟩, "An intro"⟩

/-- Sample social media posts. -/
def samplePosts : SocialMediaPosts := ⟨"post x", "post fb", "post li", ["#tag"]⟩

/-- A Creation-phase state holding a draft, a generated article, social
posts and a non-blank revision prompt. -/
def sampleCreation : CreationState :=
  ⟨some sampleDraft, some "the article", some samplePosts, false, false, "make it shorter", none⟩

/-- A sample keyword-analysis response. -/
def sampleKeywords : KeywordAnalysisResponse :=
  ⟨[⟨"best shoes", "High", "Low", "15", "primary target"⟩], "a summary"⟩

/-- A Preparation-phase state with all prior results held. -/
def samplePrep : PrepState :=
  ⟨.idle, none, "https://a.com", "https://b.com", "", some sampleKeywords,
   "best shoes", some [⟨"t", "https://c.com", "s"⟩]⟩

/-- A sample performance analysis. -/
def samplePerf : PerformanceAnalysis :=
  ⟨"overall summary", ⟨"10,500", "8,200", "1.5%", "45%"⟩,
   [⟨"Organic", 60⟩], [⟨"shoes", 900⟩], [⟨"do x", "because y"⟩]⟩

/-- An Analysis-phase state with a held report. -/
def sampleAnalysis : AnalysisState :=
  ⟨false, none, "https://a.com/post", "", some samplePerf⟩

/-- If a key is absent, the truthiness of the field access is false. -/
theorem truthyField_of_none {j : Json} {k : String} (h : jsField j k = none) :
    truthyField j k = false := by
  unfold truthyField
  rw [h]

/-- A present-but-empty string field is falsy. -/
theorem truthyField_of_emptyStr {j : Json} {k : String}
    (h : jsField j k = some (.str "")) : truthyField j k = false := by
  unfold truthyField
  rw [h]
  rfl

/-- Claim C3: with no configured access-gate secret, `verifyPassword` returns
success `false` for every supplied password, including the empty string. -/
theorem verifyPassword_denies_without_secret :
    ∀ (password : String) (apiKey : Option String) (o : OpOutcome),
      handler "POST" "verifyPassword" password none apiKey o = ⟨200, .dataSuccess false⟩ := by
  intro pw ak o
  rfl

/-- Counterexample to claim C4 as stated: a POST with an unrecognized
operation name, sent while the generation credential is unset, yields
HTTP 500, not the claimed 400. -/
theorem handler_unknown_op_no_key_cex :
    handler "POST" "unknownOperation" "" none none (.ok none)
      = ⟨500, .error "API_KEY environment variable not set on the server"⟩
    ∧ (handler "POST" "unknownOperation" "" none none (.ok none)).status ≠ 400 := by
  exact ⟨rfl, by decide⟩

/-- Claim C4 (amended): non-POST yields 405; with the generation credential
unset, any non-`verifyPassword` operation (recognized or not) yields 500;
with the credential set, an unrecognized operation yields 400; a thrown
downstream exception yields 500 carrying the message; a successful dispatch
yields 200 with the data. -/
theorem handler_dispatch :
    ∀ (method op pw : String) (apw ak : Option String) (o : OpOutcome),
      (method ≠ "POST" →
        handler method op pw apw ak o = ⟨405, .error "Method Not Allowed"⟩)
      ∧ (method = "POST" → op ≠ "verifyPassword" → envSet ak = false →
        handler method op pw apw ak o
          = ⟨500, .error "API_KEY environment variable not set on the server"⟩)
      ∧ (method = "POST" → op ≠ "verifyPassword" → op ∉ genOps → envSet ak = true →
        handler method op pw apw ak o = ⟨400, .error "Invalid operation specified."⟩)
      ∧ (∀ m, method = "POST" → op ∈ genOps → envSet ak = true → o = .thrown m →
        handler method op pw apw ak o
          = ⟨500, .error ("An internal server error occurred: " ++ m)⟩)
      ∧ (∀ j, method = "POST" → op ∈ genOps → envSet ak = true → o = .ok j →
        handler method op pw apw ak o = ⟨200, .data j⟩) := by
  intro method op pw apw ak o
  refine ⟨?_, ?_, ?_, ?_, ?_⟩
  · intro h
    simp [handler, h]
  · intro h1 h2 h3
    simp [handler, h1, h2, h3]
  · intro h1 h2 h3 h4
    simp [handler, h1, h2, h3, h4]
  · intro m h1 h2 h3 h4
    have h5 : op ≠ "verifyPassword" := by
      rintro rfl
      simp [genOps] at h2
    subst h4
    simp [handler, h1, h2, h3, h5]
  · intro j h1 h2 h3 h4
    have h5 : op ≠ "verifyPassword" := by
      rintro rfl
      simp [genOps] at h2
    subst h4
    simp [handler, h1, h2, h3, h5]

/-- Concrete instantiation of `handler_dispatch` on each of its five arms. -/
theorem handler_dispatch_witness :
    handler "GET" "analyzeKeywords" "" none (some "k") (.ok none)
      = ⟨405, .error "Method Not Allowed"⟩
    ∧ handler "POST" "analyzeKeywords" "" none none (.ok none)
      = ⟨500, .error "API_KEY environment variable not set on the server"⟩
    ∧ handler "POST" "noSuchOp" "" none (some "k") (.ok none)
      = ⟨400, .error "Invalid operation specified."⟩
    ∧ handler "POST" "analyzeKeywords" "" none (some "k") (.thrown "boom")
      = ⟨500, .error ("An internal server error occurred: " ++ "boom")⟩
    ∧ handler "POST" "analyzeKeywords" "" none (some "k") (.ok (some .null))
      = ⟨200, .data (some .null)⟩ := by
  refine ⟨(handler_dispatch "GET" "analyzeKeywords" "" none (some "k") (.ok none)).1 (by decide),
    (handler_dispatch "POST" "analyzeKeywords" "" none none (.ok none)).2.1 rfl (by decide) rfl,
    (handler_dispatch "POST" "noSuchOp" "" none (some "k") (.ok none)).2.2.1 rfl (by decide)
      (by decide) rfl,
    (handler_dispatch "POST" "analyzeKeywords" "" none (some "k") (.thrown "boom")).2.2.2.1 "boom"
      rfl (by decide) rfl rfl,
    (handler_dispatch "POST" "analyzeKeywords" "" none (some "k") (.ok (some .null))).2.2.2.2
      (some .null) rfl (by decide) rfl rfl⟩

/-- Counterexample to claim C1 as stated: this oracle text parses to an
object missing the required `keyMetrics` field of `PerformanceAnalysis`,
yet `analyzePerformanceData`'s normalizer returns the partially-filled
record rather than the null sentinel. -/
theorem normalize_partial_record_cex :
    safeJsonParse perfMissingFieldsText = some perfMissingFieldsVal
    ∧ jsField perfMissingFieldsVal "keyMetrics" = none
    ∧ analyzePerformanceDataNormalize (some perfMissingFieldsText)
        = some perfMissingFieldsVal := by
  exact ⟨rfl, rfl, rfl⟩

/-- Claim C1 (amended): the normalizer returns the null sentinel when a
field it actually checks is absent — all required fields for
`analyzeKeywords` and `generateSocialMediaPosts`, only `outline` for
`createCompositeArticle`, only `summary` and `actionPlan` for
`analyzePerformanceData`, and only array-ness for
`findTopCompetitorArticles`. -/
theorem normalize_checked_fields :
    ∀ (t : Option String) (j : Json), safeJsonParse (orEmpty t) = some j →
      ((jsField j "keywordAnalysis" = none ∨ jsField j "summary" = none) →
        analyzeKeywordsNormalize t = none)
      ∧ (isJsArray j = false → findTopCompetitorArticlesNormalize t = none)
      ∧ (jsField j "outline" = none → createCompositeArticleNormalize t = none)
      ∧ ((jsField j "x" = none ∨ jsField j "facebook" = none
          ∨ jsField j "linkedin" = none ∨ jsField j "hashtags" = none) →
        generateSocialMediaPostsNormalize t = none)
      ∧ ((jsField j "summary" = none ∨ jsField j "actionPlan" = none) →
        analyzePerformanceDataNormalize t = none) := by
  intro t j hp
  refine ⟨?_, ?_, ?_, ?_, ?_⟩
  · intro h
    unfold analyzeKeywordsNormalize
    rw [hp]
    rcases h with h | h <;> simp [truthyField_of_none h]
  · intro h
    unfold findTopCompetitorArticlesNormalize
    rw [hp]
    simp [h]
  · intro h
    unfold createCompositeArticleNormalize
    rw [hp]
    simp [truthyField_of_none h]
  · intro h
    unfold generateSocialMediaPostsNormalize
    rw [hp]
    rcases h with h | h | h | h <;> simp [truthyField_of_none h]
  · intro h
    unfold analyzePerformanceDataNormalize
    rw [hp]
    rcases h with h | h <;> simp [truthyField_of_none h]

/-- Concrete instantiation of `normalize_checked_fields`: the empty object
is rejected by the four object stages, a bare number by the array stage. -/
theorem normalize_checked_fields_witness :
    analyzeKeywordsNormalize (some "\x7b\x7d") = none
    ∧ createCompositeArticleNormalize (some "\x7b\x7d") = none
    ∧ generateSocialMediaPostsNormalize (some "\x7b\x7d") = none
    ∧ analyzePerformanceDataNormalize (some "\x7b\x7d") = none
    ∧ findTopCompetitorArticlesNormalize (some "1") = none := by
  have h := normalize_checked_fields (some "\x7b\x7d") (.obj []) rfl
  have h2 := normalize_checked_fields (some "1") (.num "1") rfl
  exact ⟨h.1 (Or.inl rfl), h.2.2.1 rfl, h.2.2.2.1 (Or.inl rfl),
    h.2.2.2.2 (Or.inl rfl), h2.2.1 rfl⟩

/-- Counterexample to claim C9 as stated: this oracle text is accepted by
the composite-article stage although its `outline.sections` list is empty. -/
theorem composite_accepts_empty_sections_cex :
    createCompositeArticleNormalize (some emptySectionsText) = some emptySectionsVal
    ∧ (jsField emptySectionsVal "outline").bind (fun o => jsField o "sections")
        = some (.arr []) := by
  exact ⟨rfl, rfl⟩

/-- Claim C9 (amended): a non-null return of the composite-article stage is
only guaranteed to be a truthy non-array object with a truthy `outline`
field; no non-emptiness of `sections` or `points` is enforced. -/
theorem composite_normalize_characterization :
    ∀ (t : Option String) (j : Json), createCompositeArticleNormalize t = some j →
      safeJsonParse (orEmpty t) = some j ∧ jsTruthy j = true ∧ jsTypeofObject j = true
      ∧ isJsArray j = false ∧ truthyField j "outline" = true := by
  intro t j h
  unfold createCompositeArticleNormalize at h
  split at h
  next heq => exact absurd h (by simp)
  next j' heq =>
    split at h
    next hcond =>
      simp only [Option.some.injEq] at h
      subst h
      simp only [Bool.and_eq_true, Bool.not_eq_true'] at hcond
      exact ⟨heq, hcond.1.1.1, hcond.1.1.2, hcond.1.2, hcond.2⟩
    next => exact absurd h (by simp)

/-- Concrete instantiation of `composite_normalize_characterization` at the
empty-sections input. -/
theorem composite_normalize_characterization_witness :
    safeJsonParse (orEmpty (some emptySectionsText)) = some emptySectionsVal
    ∧ jsTruthy emptySectionsVal = true ∧ jsTypeofObject emptySectionsVal = true
    ∧ isJsArray emptySectionsVal = false ∧ truthyField emptySectionsVal "outline" = true :=
  composite_normalize_characterization (some emptySectionsText) emptySectionsVal rfl

/-- Claim C10: a validated top-level field that parses to the empty string
(summary, or a social platform field), or an empty free-text response, is
treated as failure and yields the null sentinel, since presence checks are
truthiness checks. -/
theorem empty_string_fields_rejected :
    (∀ (t : Option String) (j : Json), safeJsonParse (orEmpty t) = some j →
      (jsField j "summary" = some (.str "") → analyzeKeywordsNormalize t = none)
      ∧ ((jsField j "x" = some (.str "") ∨ jsField j "facebook" = some (.str "")
          ∨ jsField j "linkedin" = some (.str "")) →
        generateSocialMediaPostsNormalize t = none)
      ∧ (jsField j "summary" = some (.str "") → analyzePerformanceDataNormalize t = none))
    ∧ freeTextResult (some "") = none := by
  constructor
  · intro t j hp
    refine ⟨?_, ?_, ?_⟩
    · intro h
      unfold analyzeKeywordsNormalize
      rw [hp]
      simp [truthyField_of_emptyStr h]
    · intro h
      unfold generateSocialMediaPostsNormalize
      rw [hp]
      rcases h with h | h | h <;> simp [truthyField_of_emptyStr h]
    · intro h
      unfold analyzePerformanceDataNormalize
      rw [hp]
      simp [truthyField_of_emptyStr h]
  · rfl

/-- Concrete instantiation of `empty_string_fields_rejected` at oracle texts
with present-but-empty validated fields. -/
theorem empty_string_fields_rejected_witness :
    analyzeKeywordsNormalize (some "\x7b\"summary\":\"\"\x7d") = none
    ∧ analyzePerformanceDataNormalize (some "\x7b\"summary\":\"\"\x7d") = none
    ∧ generateSocialMediaPostsNormalize (some "\x7b\"x\":\"\"\x7d") = none := by
  have h := (empty_string_fields_rejected.1 (some "\x7b\"summary\":\"\"\x7d")
    (.obj [("summary", .str "")]) rfl)
  have h2 := (empty_string_fields_rejected.1 (some "\x7b\"x\":\"\"\x7d")
    (.obj [("x", .str "")]) rfl)
  exact ⟨h.1 rfl, h.2.2 rfl, h2.2.1 (Or.inl rfl)⟩

/-- Counterexample to claim C2 as stated: a revision that fails (null
result) does not leave the previously held social posts intact — they are
cleared before the call and not restored; only the error message and the
kept article match the claim. -/
theorem revise_failure_clears_social_cex :
    sampleCreation.socialPosts = some samplePosts
    ∧ (handleReviseArticle sampleCreation (.ok none)).socialPosts = none
    ∧ (handleReviseArticle sampleCreation (.ok none)).fullArticle = sampleCreation.fullArticle
    ∧ (handleReviseArticle sampleCreation (.ok none)).error
        = some "記事の修正中にエラーが発生しました。" := by
  exact ⟨rfl, rfl, rfl, rfl⟩

/-- Claim C2 (amended): when a stage's call returns the null sentinel or
throws, an error message is set and state not owned by the stage is left
unchanged, but the stage's own previously held result is cleared before the
call and not restored; a failed revision keeps the article but clears the
social posts, and only composite-draft creation leaves all prior results
untouched. -/
theorem stage_failure_semantics :
    (∀ (s : PrepState) (o : CallOutcome KeywordAnalysisResponse),
      trimJs s.userUrl ≠ "" → o.failed →
        (handleAnalyzeKeywords s o).keywordAnalysis = none
        ∧ (handleAnalyzeKeywords s o).error.isSome = true
        ∧ (handleAnalyzeKeywords s o).topic = s.topic
        ∧ (handleAnalyzeKeywords s o).competitorArticles = s.competitorArticles)
    ∧ (∀ (s : PrepState) (o : CallOutcome (List CompetitorArticle)),
      trimJs s.topic ≠ "" → o.failed →
        (handleFindArticles s o).competitorArticles = none
        ∧ (handleFindArticles s o).error.isSome = true
        ∧ (handleFindArticles s o).keywordAnalysis = s.keywordAnalysis
        ∧ (handleFindArticles s o).topic = s.topic)
    ∧ (∀ (s : PrepState) (o : CallOutcome ArticleDraft),
      s.competitorArticles ≠ none → s.topic ≠ "" → o.failed →
        (handleCreateCompositeArticle s o).1.keywordAnalysis = s.keywordAnalysis
        ∧ (handleCreateCompositeArticle s o).1.competitorArticles = s.competitorArticles
        ∧ (handleCreateCompositeArticle s o).1.topic = s.topic
        ∧ (handleCreateCompositeArticle s o).1.error.isSome = true
        ∧ (handleCreateCompositeArticle s o).2 = none)
    ∧ (∀ (s : CreationState) (a : CallOutcome FullArticle) (so : CallOutcome SocialMediaPosts),
      s.draft ≠ none → a.failed →
        (handleGenerateArticle s a so).1.draft = s.draft
        ∧ (handleGenerateArticle s a so).1.fullArticle = none
        ∧ (handleGenerateArticle s a so).1.socialPosts = none
        ∧ (handleGenerateArticle s a so).1.error.isSome = true)
    ∧ (∀ (s : CreationState) (o : CallOutcome FullArticle),
      s.fullArticle ≠ none → trimJs s.revisionPrompt ≠ "" → o.failed →
        (handleReviseArticle s o).fullArticle = s.fullArticle
        ∧ (handleReviseArticle s o).draft = s.draft
        ∧ (handleReviseArticle s o).socialPosts = none
        ∧ (handleReviseArticle s o).revisionPrompt = s.revisionPrompt
        ∧ (handleReviseArticle s o).error.isSome = true)
    ∧ (∀ (s : AnalysisState) (o : CallOutcome PerformanceAnalysis),
      trimJs s.articleUrl ≠ "" → startsWithJs s.articleUrl "http" = true → o.failed →
        (handleGenerateReport s o).analysis = none
        ∧ (handleGenerateReport s o).error.isSome = true
        ∧ (handleGenerateReport s o).articleUrl = s.articleUrl
        ∧ (handleGenerateReport s o).socialUrl = s.socialUrl) := by
  refine ⟨?_, ?_, ?_, ?_, ?_, ?_⟩
  · intro s o hg hf
    rcases o with v | m
    · rcases v with _ | r
      · simp [handleAnalyzeKeywords, hg]
      · exact absurd hf id
    · simp [handleAnalyzeKeywords, hg]
  · intro s o hg hf
    rcases o with v | m
    · rcases v with _ | r
      · simp [handleFindArticles, hg]
      · exact absurd hf id
    · simp [handleFindArticles, hg]
  · intro s o h1 h2 hf
    rcases o with v | m
    · rcases v with _ | r
      · simp [handleCreateCompositeArticle, h1, h2]
      · exact absurd hf id
    · simp [handleCreateCompositeArticle, h1, h2]
  · intro s a so h1 hf
    rcases a with v | m
    · rcases v with _ | r
      · simp [handleGenerateArticle, h1]
      · exact absurd hf id
    · simp [handleGenerateArticle, h1]
  · intro s o h1 h2 hf
    rcases o with v | m
    · rcases v with _ | r
      · simp [handleReviseArticle, h1, h2]
      · exact absurd hf id
    · simp [handleReviseArticle, h1, h2]
  · intro s o h1 h2 hf
    rcases o with v | m
    · rcases v with _ | r
      · simp [handleGenerateReport, h1, h2]
      · exact absurd hf id
    · simp [handleGenerateReport, h1, h2]

/-- Concrete instantiation of `stage_failure_semantics` with held prior
results and a null outcome at every stage. -/
theorem stage_failure_semantics_witness :
    ((handleAnalyzeKeywords samplePrep (.ok none)).keywordAnalysis = none
      ∧ (handleAnalyzeKeywords samplePrep (.ok none)).error.isSome = true
      ∧ (handleAnalyzeKeywords samplePrep (.ok none)).topic = samplePrep.topic
      ∧ (handleAnalyzeKeywords samplePrep (.ok none)).competitorArticles
          = samplePrep.competitorArticles)
    ∧ ((handleFindArticles samplePrep (.ok none)).competitorArticles = none
      ∧ (handleFindArticles samplePrep (.ok none)).error.isSome = true
      ∧ (handleFindArticles samplePrep (.ok none)).keywordAnalysis = samplePrep.keywordAnalysis
      ∧ (handleFindArticles samplePrep (.ok none)).topic = samplePrep.topic)
    ∧ ((handleCreateCompositeArticle samplePrep (.ok none)).1.keywordAnalysis
          = samplePrep.keywordAnalysis
      ∧ (handleCreateCompositeArticle samplePrep (.ok none)).1.competitorArticles
          = samplePrep.competitorArticles
      ∧ (handleCreateCompositeArticle samplePrep (.ok none)).1.topic = samplePrep.topic
      ∧ (handleCreateCompositeArticle samplePrep (.ok none)).1.error.isSome = true
      ∧ (handleCreateCompositeArticle samplePrep (.ok none)).2 = none)
    ∧ ((handleGenerateArticle sampleCreation (.ok none) (.ok none)).1.draft
          = sampleCreation.draft
      ∧ (handleGenerateArticle sampleCreation (.ok none) (.ok none)).1.fullArticle = none
      ∧ (handleGenerateArticle sampleCreation (.ok none) (.ok none)).1.socialPosts = none
      ∧ (handleGenerateArticle sampleCreation (.ok none) (.ok none)).1.error.isSome = true)
    ∧ ((handleReviseArticle sampleCreation (.ok none)).fullArticle = sampleCreation.fullArticle
      ∧ (handleReviseArticle sampleCreation (.ok none)).draft = sampleCreation.draft
      ∧ (handleReviseArticle sampleCreation (.ok none)).socialPosts = none
      ∧ (handleReviseArticle sampleCreation (.ok none)).revisionPrompt
          = sampleCreation.revisionPrompt
      ∧ (handleReviseArticle sampleCreation (.ok none)).error.isSome = true)
    ∧ ((handleGenerateReport sampleAnalysis (.ok none)).analysis = none
      ∧ (handleGenerateReport sampleAnalysis (.ok none)).error.isSome = true
      ∧ (handleGenerateReport sampleAnalysis (.ok none)).articleUrl = sampleAnalysis.articleUrl
      ∧ (handleGenerateReport sampleAnalysis (.ok none)).socialUrl
          = sampleAnalysis.socialUrl) := by
  exact ⟨stage_failure_semantics.1 samplePrep (.ok none) (by decide) trivial,
    stage_failure_semantics.2.1 samplePrep (.ok none) (by decide) trivial,
    stage_failure_semantics.2.2.1 samplePrep (.ok none) (by decide) (by decide) trivial,
    stage_failure_semantics.2.2.2.1 sampleCreation (.ok none) (.ok none) (by decide) trivial,
    stage_failure_semantics.2.2.2.2.1 sampleCreation (.ok none) (by decide) (by decide) trivial,
    stage_failure_semantics.2.2.2.2.2 sampleAnalysis (.ok none) (by decide) (by decide) trivial⟩

/-- Claim C5: every revision from the Creation phase clears the held social
posts (whether it succeeds or fails), and the social posts only become
non-null again through a social-post generation call that returned them,
which itself presupposes a successful article generation. -/
theorem revise_discards_social_posts :
    (∀ (s : CreationState) (o : CallOutcome FullArticle),
      s.fullArticle ≠ none → trimJs s.revisionPrompt ≠ "" →
        (handleReviseArticle s o).socialPosts = none)
    ∧ (∀ (s : CreationState) (a : CallOutcome FullArticle)
        (so : CallOutcome SocialMediaPosts) (p : SocialMediaPosts),
      s.socialPosts = none → (handleGenerateArticle s a so).1.socialPosts = some p →
        so = .ok (some p) ∧ ∃ art, a = .ok (some art)) := by
  constructor
  · intro s o h1 h2
    rcases o with v | m
    · rcases v with _ | r <;> simp [handleReviseArticle, h1, h2]
    · simp [handleReviseArticle, h1, h2]
  · intro s a so p h0 h
    by_cases hd : s.draft = none
    · simp [handleGenerateArticle, hd] at h
      rw [h0] at h
      exact absurd h (by simp)
    · rcases a with v | m
      · rcases v with _ | art
        · simp [handleGenerateArticle, hd] at h
        · rcases so with w | m2
          · rcases w with _ | q
            · simp [handleGenerateArticle, hd] at h
            · simp [handleGenerateArticle, hd] at h
              exact ⟨by rw [h], art, rfl⟩
          · simp [handleGenerateArticle, hd] at h
      · simp [handleGenerateArticle, hd] at h

/-- Concrete instantiation of `revise_discards_social_posts`: a revision
clears the sample posts, and a successful generation chain yields exactly
the posts the social call returned. -/
theorem revise_discards_social_posts_witness :
    (handleReviseArticle sampleCreation (.ok (some "revised"))).socialPosts = none
    ∧ ((.ok (some samplePosts) : CallOutcome SocialMediaPosts) = .ok (some samplePosts)
        ∧ ∃ art, (.ok (some "new article") : CallOutcome FullArticle) = .ok (some art)) := by
  refine ⟨revise_discards_social_posts.1 sampleCreation (.ok (some "revised"))
      (by decide) (by decide),
    revise_discards_social_posts.2 { sampleCreation with socialPosts := none }
      (.ok (some "new article")) (.ok (some samplePosts)) samplePosts rfl rfl⟩

/-- Claim C6: in the full-article stage the social-post request is issued
exactly when article generation returned a non-null article (never when it
failed), and a null social result leaves the just-stored article in place. -/
theorem social_only_after_article :
    ∀ (s : CreationState) (a : CallOutcome FullArticle) (so : CallOutcome SocialMediaPosts),
      ((handleGenerateArticle s a so).2 = true →
        ∃ art, a = .ok (some art) ∧ (handleGenerateArticle s a so).1.fullArticle = some art)
      ∧ (a.failed → (handleGenerateArticle s a so).2 = false)
      ∧ (∀ art, s.draft ≠ none → a = .ok (some art) → so = .ok none →
        (handleGenerateArticle s a so).1.fullArticle = some art) := by
  intro s a so
  refine ⟨?_, ?_, ?_⟩
  · intro h
    by_cases hd : s.draft = none
    · simp [handleGenerateArticle, hd] at h
    · rcases a with v | m
      · rcases v with _ | art
        · simp [handleGenerateArticle, hd] at h
        · refine ⟨art, rfl, ?_⟩
          rcases so with w | m2
          · rcases w with _ | q <;> simp [handleGenerateArticle, hd]
          · simp [handleGenerateArticle, hd]
      · simp [handleGenerateArticle, hd] at h
  · intro hf
    by_cases hd : s.draft = none
    · simp [handleGenerateArticle, hd]
    · rcases a with v | m
      · rcases v with _ | art
        · simp [handleGenerateArticle, hd]
        · exact absurd hf id
      · simp [handleGenerateArticle, hd]
  · intro art hd ha hso
    subst ha
    subst hso
    simp [handleGenerateArticle, hd]

/-- Concrete instantiation of `social_only_after_article` on a successful
article generation with a null social result. -/
theorem social_only_after_article_witness :
    (∃ art, (.ok (some "the full text") : CallOutcome FullArticle) = .ok (some art)
      ∧ (handleGenerateArticle sampleCreation (.ok (some "the full text"))
          (.ok (some samplePosts))).1.fullArticle = some art)
    ∧ (handleGenerateArticle sampleCreation (.ok none) (.ok none)).2 = false
    ∧ (handleGenerateArticle sampleCreation (.ok (some "the full text"))
        (.ok none)).1.fullArticle = some "the full text" := by
  refine ⟨(social_only_after_article sampleCreation (.ok (some "the full text"))
      (.ok (some samplePosts))).1 rfl,
    (social_only_after_article sampleCreation (.ok none) (.ok none)).2.1 trivial,
    (social_only_after_article sampleCreation (.ok (some "the full text"))
      (.ok none)).2.2 "the full text" (by decide) rfl rfl⟩

/-- Doubling every quote doubles the number of quote characters. -/
theorem quoteCount_escQuotes : ∀ s : String, quoteCount (escQuotes s) = 2 * quoteCount s := by
  intro s
  show (s.toList.flatMap (fun c => if c = '"' then ['"', '"'] else [c])).count '"'
    = 2 * s.toList.count '"'
  induction s.toList with
  | nil => rfl
  | cons c t ih =>
    by_cases hc : c = '"'
    · subst hc
      simp [List.count_append, ih, List.count_cons]
      ring
    · simp [List.count_append, ih, List.count_cons, hc]

/-- Claim C8: the CSV export is, in order, the data-URI header followed by
exactly the five labeled sections Summary, Key Metrics, Traffic Sources,
Keyword Performance and Action Plan, and every double quote inside a
free-text field (summary, keyword, action, justification) is doubled by the
escaping applied there. -/
theorem csv_five_sections_quote_doubling :
    (∀ d : PerformanceAnalysis,
      csvContent d
        = "data:text/csv;charset=utf-8,"
          ++ ("Summary\n"
              ++ "\"" ++ escQuotes d.summary ++ "\"\n\n")
          ++ ("Key Metrics\n"
              ++ "Metric,Value\n"
              ++ "Monthly PV," ++ d.keyMetrics.monthlyPV ++ "\n"
              ++ "Users," ++ d.keyMetrics.users ++ "\n"
              ++ "Conversion Rate," ++ d.keyMetrics.cvr ++ "\n"
              ++ "Bounce Rate," ++ d.keyMetrics.bounceRate ++ "\n\n")
          ++ ("Traffic Sources\n"
              ++ "Source,Percentage\n"
              ++ String.join (d.trafficSources.map
                  (fun ts => ts.source ++ "," ++ toString ts.percentage ++ "%\n"))
              ++ "\n")
          ++ ("Keyword Performance\n"
              ++ "Keyword,Estimated PV\n"
              ++ String.join (d.keywordPerformance.map
                  (fun kw => "\"" ++ escQuotes kw.keyword ++ "\","
                    ++ toString kw.estimatedPV ++ "\n"))
              ++ "\n")
          ++ ("Action Plan\n"
              ++ "Action,Justification" ++ "\n"
              ++ String.intercalate "\n" (d.actionPlan.map
                  (fun it => "\"" ++ escQuotes it.action ++ "\",\""
                    ++ escQuotes it.justification ++ "\""))))
    ∧ (∀ s : String, quoteCount (escQuotes s) = 2 * quoteCount s) := by
  constructor
  · intro d
    simp only [csvContent, String.append_assoc]
  · exact quoteCount_escQuotes

/-- JSON whitespace is also regex whitespace. -/
theorem jsonWs_imp_jsRegexWs {c : Char} (h : jsonWs c = true) : jsRegexWs c = true := by
  simp only [jsonWs, Bool.or_eq_true, decide_eq_true_eq] at h
  rcases h with ((h | h) | h) | h <;> subst h <;> decide

/-- A character a JSON value can start with is not regex whitespace. -/
theorem goodStartChar_not_jsRegexWs {c : Char} (h : goodStartChar c = true) :
    jsRegexWs c = false := by
  simp only [goodStartChar, Bool.or_eq_true, decide_eq_true_eq] at h
  rcases h with ((((((h | h) | h) | h) | h) | h) | h) | h
  · subst h; decide
  · subst h; decide
  · subst h; decide
  · subst h; decide
  · subst h; decide
  · subst h; decide
  · subst h; decide
  · have hd : 48 ≤ c.toNat ∧ c.toNat ≤ 57 := by
      simpa [isDigitChar] using h
    by_contra hb
    rw [Bool.not_eq_false] at hb
    simp only [jsRegexWs, Bool.or_eq_true, Bool.and_eq_true, decide_eq_true_eq,
      List.mem_cons, List.not_mem_nil, or_false] at hb
    omega

/-- A character a JSON value can start with is not JSON whitespace. -/
theorem goodStartChar_not_jsonWs {c : Char} (h : goodStartChar c = true) :
    jsonWs c = false := by
  by_contra hc
  rw [Bool.not_eq_false] at hc
  have h1 := jsonWs_imp_jsRegexWs hc
  have h2 := goodStartChar_not_jsRegexWs h
  rw [h1] at h2
  simp at h2

/-- A list splits into its right-trimmed part and a whitespace tail. -/
theorem trimRightWs_decomp (l : List Char) :
    l = trimRightWs l ++ (l.reverse.takeWhile jsonWs).reverse := by
  unfold trimRightWs
  rw [← List.reverse_append, List.takeWhile_append_dropWhile, List.reverse_reverse]

/-- Every character of the trimmed-off tail is whitespace. -/
theorem trimRightWs_tail_ws (l : List Char) :
    ∀ c ∈ (l.reverse.takeWhile jsonWs).reverse, jsonWs c = true := by
  intro c hc
  rw [List.mem_reverse] at hc
  exact List.mem_takeWhile_imp hc

/-- Appending whitespace on the right does not change the right trim. -/
theorem trimRightWs_append_ws {m : List Char} (hm : ∀ c ∈ m, jsonWs c = true)
    (l : List Char) : trimRightWs (l ++ m) = trimRightWs l := by
  unfold trimRightWs
  rw [List.reverse_append, List.dropWhile_append]
  have hnil : m.reverse.dropWhile jsonWs = [] := by
    rw [List.dropWhile_eq_nil_iff]
    intro x hx
    exact hm x (List.mem_reverse.mp hx)
  simp [hnil]

/-- A list whose last character is not whitespace is already right-trimmed. -/
theorem trimRightWs_eq_self {l : List Char} {c : Char} (hl : l.getLast? = some c)
    (hc : jsonWs c = false) : trimRightWs l = l := by
  unfold trimRightWs
  rw [List.getLast?_eq_head?_reverse] at hl
  rcases hr : l.reverse with _ | ⟨a, t⟩
  · simp [hr] at hl
  · rw [hr] at hl
    simp only [List.head?_cons, Option.some.injEq] at hl
    subst hl
    rw [List.dropWhile_cons_of_neg (by simp [hc])]
    rw [← hr, List.reverse_reverse]

/-- The trim is idempotent. -/
theorem trimRightWs_idem (l : List Char) : trimRightWs (trimRightWs l) = trimRightWs l := by
  unfold trimRightWs
  rw [List.reverse_reverse, List.dropWhile_idempotent]

/-- A nonempty right trim starts where the list starts. -/
theorem trimRightWs_head? {l : List Char} (h : trimRightWs l ≠ []) :
    (trimRightWs l).head? = l.head? := by
  conv_rhs => rw [trimRightWs_decomp l]
  rw [List.head?_append_of_ne_nil _ h]

/-- Cons keeps the last element of a nonempty tail. -/
theorem getLast?_cons_of_ne_nil {a : Char} {l : List Char} (h : l ≠ []) :
    (a :: l).getLast? = l.getLast? := by
  rcases l with _ | ⟨b, t⟩
  · exact absurd rfl h
  · exact List.getLast?_cons_cons

/-- The last element of an append with a nonempty right part. -/
theorem getLast?_append_right {l m : List Char} {c : Char} (h : m.getLast? = some c) :
    (l ++ m).getLast? = some c := by
  rw [List.getLast?_append, h]
  rfl

/-- `lastGood` is preserved by prepending. -/
theorem lastGood_append {l m : List Char} (h : lastGood m) : lastGood (l ++ m) := by
  obtain ⟨c, hc, hg⟩ := h
  exact ⟨c, getLast?_append_right hc, hg⟩

/-- A successful `parseVal` starts at a value start character. -/
theorem parseVal_goodStart {f : Nat} {cs : List Char} {r : Json × List Char}
    (h : parseVal f cs = some r) :
    ∃ c cs', cs = c :: cs' ∧ goodStartChar c = true := by
  match f, cs with
  | 0, _ => simp [parseVal] at h
  | f + 1, [] => simp [parseVal] at h
  | f + 1, c :: rest =>
    refine ⟨c, rest, rfl, ?_⟩
    simp only [parseVal] at h
    split_ifs at h with h1 h2 h3 h4 h5 h6 h7
    · simp [goodStartChar, h1]
    · simp [goodStartChar, h2]
    · simp [goodStartChar, h3]
    · simp [goodStartChar, h4]
    · simp [goodStartChar, h5]
    · simp [goodStartChar, h6]
    · rcases h7 with h7 | h7 <;> simp [goodStartChar, h7]

/-- Prepending a fixed prefix to a consumed-plus-rest split. -/
theorem consume_cons {cs1 con rest pre : List Char} (hc : cs1 = con ++ rest)
    (hl : con.getLast? = some '"') :
    pre ++ cs1 = (pre ++ con) ++ rest ∧ (pre ++ con).getLast? = some '"' :=
  ⟨by rw [hc, List.append_assoc], getLast?_append_right hl⟩

/-- A successful escape read consumes at least one character. -/
theorem readEscape_consume {cs : List Char} {x : Char} {cs2 : List Char}
    (h : readEscape cs = some (x, cs2)) : ∃ pre, cs = pre ++ cs2 ∧ pre ≠ [] := by
  rw [readEscape.eq_def] at h
  split at h
  · exact absurd h (by simp)
  next e cs2' =>
    split_ifs at h with e1 e2 e3 e4 e5 e6 e7 e8 e9
    · simp only [Option.some.injEq, Prod.mk.injEq] at h
      exact ⟨[e], by rw [h.2]; rfl, by simp⟩
    · simp only [Option.some.injEq, Prod.mk.injEq] at h
      exact ⟨[e], by rw [h.2]; rfl, by simp⟩
    · simp only [Option.some.injEq, Prod.mk.injEq] at h
      exact ⟨[e], by rw [h.2]; rfl, by simp⟩
    · simp only [Option.some.injEq, Prod.mk.injEq] at h
      exact ⟨[e], by rw [h.2]; rfl, by simp⟩
    · simp only [Option.some.injEq, Prod.mk.injEq] at h
      exact ⟨[e], by rw [h.2]; rfl, by simp⟩
    · simp only [Option.some.injEq, Prod.mk.injEq] at h
      exact ⟨[e], by rw [h.2]; rfl, by simp⟩
    · simp only [Option.some.injEq, Prod.mk.injEq] at h
      exact ⟨[e], by rw [h.2]; rfl, by simp⟩
    · simp only [Option.some.injEq, Prod.mk.injEq] at h
      exact ⟨[e], by rw [h.2]; rfl, by simp⟩
    · split at h
      next a1 a2 a3 a4 cs3 =>
        split at h
        next =>
          simp only [Option.some.injEq, Prod.mk.injEq] at h
          exact ⟨[e, a1, a2, a3, a4], by rw [h.2]; rfl, by simp⟩
        next => exact absurd h (by simp)
      next => exact absurd h (by simp)

/-- A successful string-body parse consumes up to and including the closing
quote. -/
theorem parseStringBody_consume :
    ∀ (f : Nat) (acc cs : List Char) (s : String) (rest : List Char),
      parseStringBody f acc cs = some (s, rest) →
      ∃ con, cs = con ++ rest ∧ con.getLast? = some '"' := by
  intro f
  induction f with
  | zero => intro acc cs s rest h; simp [parseStringBody] at h
  | succ f ih =>
    intro acc cs s rest h
    rcases cs with _ | ⟨c, cs1⟩
    · simp [parseStringBody] at h
    · simp only [parseStringBody] at h
      split_ifs at h with h1 h2 h3
      · simp only [Option.some.injEq, Prod.mk.injEq] at h
        subst h1
        exact ⟨['"'], by rw [h.2]; rfl, rfl⟩
      · rcases hre : readEscape cs1 with _ | ⟨x, cs2⟩
        · rw [hre] at h
          exact absurd h (by simp)
        · rw [hre] at h
          obtain ⟨con, hc, hl⟩ := ih _ _ _ _ h
          obtain ⟨pre, hp, hpne⟩ := readEscape_consume hre
          refine ⟨(c :: pre) ++ con, ?_, getLast?_append_right hl⟩
          rw [hp, hc]
          simp [List.append_assoc]
      · obtain ⟨con, hc, hl⟩ := ih _ _ _ _ h
        have hcne : con ≠ [] := by rintro rfl; simp at hl
        refine ⟨c :: con, by rw [hc]; rfl, ?_⟩
        rw [getLast?_cons_of_ne_nil hcne, hl]

/-- `parseDigits` splits its input. -/
theorem parseDigits_split : ∀ cs : List Char, (parseDigits cs).1 ++ (parseDigits cs).2 = cs := by
  intro cs
  induction cs with
  | nil => rfl
  | cons c t ih =>
    by_cases hc : isDigitChar c = true
    · simp [parseDigits, hc, ih]
    · simp [parseDigits, hc]

/-- Every character `parseDigits` takes is a digit. -/
theorem parseDigits_all : ∀ cs : List Char, ∀ c ∈ (parseDigits cs).1, isDigitChar c = true := by
  intro cs
  induction cs with
  | nil => simp [parseDigits]
  | cons c t ih =>
    by_cases hc : isDigitChar c = true
    · simp only [parseDigits, hc, if_true]
      intro x hx
      rcases List.mem_cons.mp hx with rfl | hx
      · exact hc
      · exact ih x hx
    · simp [parseDigits, hc]

/-- A nonempty all-digit list ends in a digit. -/
theorem nonempty_digit_end {l : List Char} (h : l ≠ [])
    (hall : ∀ c ∈ l, isDigitChar c = true) :
    ∃ c, l.getLast? = some c ∧ isDigitChar c = true := by
  have hg := List.getLast?_eq_getLast l h
  exact ⟨l.getLast h, hg, hall _ (List.getLast_mem h)⟩

/-- Appending an optional digit-ended part keeps a digit ending. -/
theorem endsDigit_append {a b : List Char}
    (hb : b = [] ∨ ∃ c, b.getLast? = some c ∧ isDigitChar c = true)
    (ha : ∃ c, a.getLast? = some c ∧ isDigitChar c = true) :
    ∃ c, (a ++ b).getLast? = some c ∧ isDigitChar c = true := by
  rcases hb with rfl | ⟨c, hc, hd⟩
  · simpa using ha
  · exact ⟨c, getLast?_append_right hc, hd⟩

/-- `parseFrac` splits its input and, when nonempty, ends in a digit. -/
theorem parseFrac_consume {cs f r : List Char} (h : parseFrac cs = some (f, r)) :
    cs = f ++ r ∧ (f = [] ∨ ∃ c, f.getLast? = some c ∧ isDigitChar c = true) := by
  rw [parseFrac.eq_def] at h
  split at h
  next cs1 =>
    split at h
    next => exact absurd h (by simp)
    next =>
      rename_i d r1 hguard heq
      simp only [Option.some.injEq, Prod.mk.injEq] at h
      obtain ⟨hf, hr⟩ := h
      subst hf
      subst hr
      have hsplit := parseDigits_split cs1
      have hall := parseDigits_all cs1
      rw [heq] at hsplit hall
      dsimp only at hsplit hall
      have hdne : d ≠ [] := fun hh => hguard hh
      constructor
      · rw [← hsplit]
        rfl
      · right
        obtain ⟨c, hc, hd⟩ := nonempty_digit_end hdne hall
        exact ⟨c, by rw [getLast?_cons_of_ne_nil hdne, hc], hd⟩
  next =>
    simp only [Option.some.injEq, Prod.mk.injEq] at h
    obtain ⟨hf, hr⟩ := h
    subst hf
    subst hr
    exact ⟨rfl, Or.inl rfl⟩

/-- `parseExp` splits its input and, when nonempty, ends in a digit. -/
theorem parseExp_consume {cs e r : List Char} (h : parseExp cs = some (e, r)) :
    cs = e ++ r ∧ (e = [] ∨ ∃ c, e.getLast? = some c ∧ isDigitChar c = true) := by
  rw [parseExp.eq_def] at h
  split at h
  next =>
    simp only [Option.some.injEq, Prod.mk.injEq] at h
    obtain ⟨hf, hr⟩ := h
    subst hf
    subst hr
    exact ⟨rfl, Or.inl rfl⟩
  next c cs2 =>
    split_ifs at h with hc
    · rcases cs2 with _ | ⟨s, r2⟩
      · simp [parseDigits] at h
      · simp only [] at h
        split_ifs at h with hs
        · split at h
          next => exact absurd h (by simp)
          next =>
            rename_i d r3 hguard heq
            simp only [Option.some.injEq, Prod.mk.injEq] at h
            obtain ⟨hf, hr⟩ := h
            subst hf
            subst hr
            have hdne : d ≠ [] := fun hh => hguard hh
            have hsplit := parseDigits_split r2
            have hall := parseDigits_all r2
            rw [heq] at hsplit hall
            dsimp only at hsplit hall
            refine ⟨by rw [← hsplit]; rfl, Or.inr ?_⟩
            obtain ⟨cd, hcd, hdd⟩ := nonempty_digit_end hdne hall
            refine ⟨cd, ?_, hdd⟩
            rw [getLast?_cons_of_ne_nil (by simp), getLast?_append_right hcd]
        · simp only [] at h
          split at h
          next => exact absurd h (by simp)
          next =>
            rename_i d r3 hguard heq
            simp only [Option.some.injEq, Prod.mk.injEq] at h
            obtain ⟨hf, hr⟩ := h
            subst hf
            subst hr
            have hdne : d ≠ [] := fun hh => hguard hh
            have hsplit := parseDigits_split (s :: r2)
            have hall := parseDigits_all (s :: r2)
            rw [heq] at hsplit hall
            dsimp only at hsplit hall
            refine ⟨by rw [← hsplit]; rfl, Or.inr ?_⟩
            obtain ⟨cd, hcd, hdd⟩ := nonempty_digit_end hdne hall
            refine ⟨cd, ?_, hdd⟩
            rw [getLast?_cons_of_ne_nil (by simpa using hdne), List.nil_append,
              hcd]
    · simp only [Option.some.injEq, Prod.mk.injEq] at h
      obtain ⟨hf, hr⟩ := h
      subst hf
      subst hr
      exact ⟨rfl, Or.inl rfl⟩

/-- Appending optional digit-ended parts. -/
theorem optDigit_append {f e : List Char}
    (hf : f = [] ∨ ∃ c, f.getLast? = some c ∧ isDigitChar c = true)
    (he : e = [] ∨ ∃ c, e.getLast? = some c ∧ isDigitChar c = true) :
    f ++ e = [] ∨ ∃ c, (f ++ e).getLast? = some c ∧ isDigitChar c = true := by
  rcases he with rfl | ⟨c, hc, hd⟩
  · simpa using hf
  · exact Or.inr ⟨c, getLast?_append_right hc, hd⟩

/-- A digit followed by an optional digit-ended tail ends in a digit. -/
theorem cons_digit_end {c0 : Char} {l : List Char} (hc0 : isDigitChar c0 = true)
    (hl : l = [] ∨ ∃ c, l.getLast? = some c ∧ isDigitChar c = true) :
    ∃ c, (c0 :: l).getLast? = some c ∧ isDigitChar c = true := by
  rcases hl with rfl | ⟨c, hc, hd⟩
  · exact ⟨c0, rfl, hc0⟩
  · have hne : l ≠ [] := by rintro rfl; simp at hc
    exact ⟨c, by rw [getLast?_cons_of_ne_nil hne, hc], hd⟩

/-- The part of a number after the optional sign: consumed text and rest,
with the consumed text ending in a digit. -/
theorem parseNumber_body {minus cs1 lex rest : List Char}
    (h : (match cs1 with
          | [] => none
          | c :: r =>
            if c = '0' then
              match parseFrac r with
              | none => none
              | some (f, r2) =>
                match parseExp r2 with
                | none => none
                | some (e, r3) => some (minus ++ c :: (f ++ e), r3)
            else
              if isDigitChar c = true then
                match parseDigits r with
                | (ds, r1) =>
                  match parseFrac r1 with
                  | none => none
                  | some (f, r2) =>
                    match parseExp r2 with
                    | none => none
                    | some (e, r3) => some (minus ++ c :: (ds ++ f ++ e), r3)
              else none) = some (lex, rest)) :
    ∃ body, cs1 = body ++ rest ∧ lex = minus ++ body
      ∧ ∃ c, body.getLast? = some c ∧ isDigitChar c = true := by
  split at h
  next => exact absurd h (by simp)
  next c r =>
    split_ifs at h with h0 hdig
    · rcases hf : parseFrac r with _ | ⟨f, r2⟩ <;> rw [hf] at h <;> simp only [] at h
      · exact absurd h (by simp)
      · rcases he : parseExp r2 with _ | ⟨e2, r3⟩ <;> rw [he] at h <;> simp only [] at h
        · exact absurd h (by simp)
        · simp only [Option.some.injEq, Prod.mk.injEq] at h
          obtain ⟨hlex, hrest⟩ := h
          subst hlex
          subst hrest
          obtain ⟨hr, hfd⟩ := parseFrac_consume hf
          obtain ⟨hr2, hed⟩ := parseExp_consume he
          subst h0
          refine ⟨'0' :: (f ++ e2), ?_, rfl, cons_digit_end (by decide) (optDigit_append hfd hed)⟩
          rw [hr, hr2]
          simp [List.append_assoc]
    · rcases hpd : parseDigits r with ⟨ds, r1⟩
      rw [hpd] at h
      simp only [] at h
      rcases hf : parseFrac r1 with _ | ⟨f, r2⟩ <;> rw [hf] at h <;> simp only [] at h
      · exact absurd h (by simp)
      · rcases he : parseExp r2 with _ | ⟨e2, r3⟩ <;> rw [he] at h <;> simp only [] at h
        · exact absurd h (by simp)
        · simp only [Option.some.injEq, Prod.mk.injEq] at h
          obtain ⟨hlex, hrest⟩ := h
          subst hlex
          subst hrest
          obtain ⟨hr, hfd⟩ := parseFrac_consume hf
          obtain ⟨hr2, hed⟩ := parseExp_consume he
          have hsplit := parseDigits_split r
          have hall := parseDigits_all r
          rw [hpd] at hsplit hall
          dsimp only at hsplit hall
          have hds : ds = [] ∨ ∃ c, ds.getLast? = some c ∧ isDigitChar c = true := by
            rcases hn : ds with _ | ⟨d0, dt⟩
            · exact Or.inl rfl
            · rw [← hn]
              exact Or.inr (nonempty_digit_end (by rw [hn]; simp) hall)
          refine ⟨c :: (ds ++ f ++ e2), ?_, rfl,
            cons_digit_end hdig (optDigit_append (optDigit_append hds hfd) hed)⟩
          rw [← hsplit, hr, hr2]
          simp [List.append_assoc]

/-- A successful number parse consumes its lexeme, which ends in a digit. -/
theorem parseNumber_consume {cs lex rest : List Char}
    (h : parseNumber cs = some (lex, rest)) :
    cs = lex ++ rest ∧ ∃ c, lex.getLast? = some c ∧ isDigitChar c = true := by
  rw [parseNumber.eq_def] at h
  split at h
  next minus cs1 heq =>
    obtain ⟨body, hb, hlex, hd⟩ := parseNumber_body h
    subst hlex
    have hcs : cs = minus ++ cs1 := by
      split at heq
      next =>
        simp only [Prod.mk.injEq] at heq
        rw [← heq.1, ← heq.2]
        rfl
      next =>
        simp only [Prod.mk.injEq] at heq
        rw [← heq.1, ← heq.2]
        rfl
    constructor
    · rw [hcs, hb, List.append_assoc]
    · obtain ⟨c, hc, hdd⟩ := hd
      exact ⟨c, getLast?_append_right hc, hdd⟩

/-- `lastGood` is preserved by a cons. -/
theorem lastGood_cons {c : Char} {l : List Char} (h : lastGood l) : lastGood (c :: l) := by
  obtain ⟨x, hx, hg⟩ := h
  have hne : l ≠ [] := by rintro rfl; simp at hx
  exact ⟨x, by rw [getLast?_cons_of_ne_nil hne, hx], hg⟩

/-- A single good end character is `lastGood`. -/
theorem lastGood_single {c : Char} (h : goodEndChar c = true) : lastGood [c] := ⟨c, rfl, h⟩

/-- A list ending in a good end character is `lastGood`. -/
theorem lastGood_concat {l : List Char} {c : Char} (h : goodEndChar c = true) :
    lastGood (l ++ [c]) := ⟨c, List.getLast?_concat _, h⟩

/-- A digit is a good end character. -/
theorem goodEnd_of_digit {c : Char} (h : isDigitChar c = true) : goodEndChar c = true := by
  simp [goodEndChar, h]

/-- Splitting off the whitespace prefix. -/
theorem skipWs_decomp (cs : List Char) : ∃ w, cs = w ++ skipWs cs :=
  ⟨cs.takeWhile jsonWs, (List.takeWhile_append_dropWhile jsonWs cs).symm⟩

/-- Each parser consumes a nonempty chunk ending in a character a JSON value
can end with: the conjunction for the five mutually recursive parsers, by
induction on the fuel. -/
theorem parse_consume :
    ∀ n : Nat,
      (∀ cs v rest, parseVal n cs = some (v, rest) →
        ∃ con, cs = con ++ rest ∧ lastGood con)
      ∧ (∀ cs v rest, parseArrBody n cs = some (v, rest) →
        ∃ con, cs = con ++ rest ∧ lastGood con)
      ∧ (∀ acc cs v rest, parseArrRest n acc cs = some (v, rest) →
        ∃ con, cs = con ++ rest ∧ lastGood con)
      ∧ (∀ cs v rest, parseObjBody n cs = some (v, rest) →
        ∃ con, cs = con ++ rest ∧ lastGood con)
      ∧ (∀ acc cs v rest, parseObjRest n acc cs = some (v, rest) →
        ∃ con, cs = con ++ rest ∧ lastGood con) := by
  intro n
  induction n with
  | zero =>
    refine ⟨?_, ?_, ?_, ?_, ?_⟩ <;> intro _ <;>
      simp [parseVal, parseArrBody, parseArrRest, parseObjBody, parseObjRest]
  | succ n ih =>
    obtain ⟨ihV, ihAB, ihAR, ihOB, ihOR⟩ := ih
    refine ⟨?_, ?_, ?_, ?_, ?_⟩
    · -- parseVal
      intro cs v rest h
      rcases cs with _ | ⟨c, cs1⟩
      · simp [parseVal] at h
      · simp only [parseVal] at h
        split_ifs at h with h1 h2 h3 h4 h5 h6 h7
        · rcases hsb : parseStringBody (cs1.length + 1) [] cs1 with _ | ⟨s, r⟩ <;>
            rw [hsb] at h <;> simp only [] at h
          · exact absurd h (by simp)
          · obtain ⟨hv, hr⟩ := (by simpa using h : Json.str s = v ∧ r = rest)
            subst hr
            obtain ⟨con, hc, hl⟩ := parseStringBody_consume _ _ _ _ _ hsb
            refine ⟨c :: con, by rw [hc]; rfl, lastGood_cons ⟨'"', hl, by decide⟩⟩
        · obtain ⟨con, hc, hl⟩ := ihOB _ _ _ h
          obtain ⟨w, hw⟩ := skipWs_decomp cs1
          refine ⟨c :: (w ++ con), ?_, lastGood_cons (lastGood_append hl)⟩
          rw [show cs1 = w ++ (con ++ rest) by rw [hw, hc]]
          simp [List.append_assoc]
        · obtain ⟨con, hc, hl⟩ := ihAB _ _ _ h
          obtain ⟨w, hw⟩ := skipWs_decomp cs1
          refine ⟨c :: (w ++ con), ?_, lastGood_cons (lastGood_append hl)⟩
          rw [show cs1 = w ++ (con ++ rest) by rw [hw, hc]]
          simp [List.append_assoc]
        · split at h
          next r =>
            obtain ⟨hv, hr⟩ := (by simpa using h : Json.bool true = v ∧ r = rest)
            subst hr
            subst h4
            exact ⟨['t', 'r', 'u', 'e'], rfl, ⟨'e', rfl, by decide⟩⟩
          next => exact absurd h (by simp)
        · split at h
          next r =>
            obtain ⟨hv, hr⟩ := (by simpa using h : Json.bool false = v ∧ r = rest)
            subst hr
            subst h5
            exact ⟨['f', 'a', 'l', 's', 'e'], rfl, ⟨'e', rfl, by decide⟩⟩
          next => exact absurd h (by simp)
        · split at h
          next r =>
            obtain ⟨hv, hr⟩ := (by simpa using h : Json.null = v ∧ r = rest)
            subst hr
            subst h6
            exact ⟨['n', 'u', 'l', 'l'], rfl, ⟨'l', rfl, by decide⟩⟩
          next => exact absurd h (by simp)
        · rcases hn : parseNumber (c :: cs1) with _ | ⟨lex, r⟩ <;>
            rw [hn] at h <;> simp only [] at h
          · exact absurd h (by simp)
          · obtain ⟨hv, hr⟩ := (by simpa using h : Json.num (String.mk lex) = v ∧ r = rest)
            subst hr
            obtain ⟨hsplit, cd, hcd, hdd⟩ := parseNumber_consume hn
            exact ⟨lex, hsplit, ⟨cd, hcd, goodEnd_of_digit hdd⟩⟩
    · -- parseArrBody
      intro cs v rest h
      simp only [parseArrBody] at h
      split at h
      next r =>
        obtain ⟨hv, hr⟩ := (by simpa using h : Json.arr [] = v ∧ r = rest)
        subst hr
        exact ⟨[']'], rfl, lastGood_single (by decide)⟩
      next =>
        rcases hv : parseVal n cs with _ | ⟨v1, r1⟩ <;> rw [hv] at h <;> simp only [] at h
        · exact absurd h (by simp)
        · obtain ⟨con1, hc1, hl1⟩ := ihV _ _ _ hv
          obtain ⟨con2, hc2, hl2⟩ := ihAR _ _ _ _ h
          refine ⟨con1 ++ con2, ?_, lastGood_append hl2⟩
          rw [hc1, hc2]
          simp [List.append_assoc]
    · -- parseArrRest
      intro acc cs v rest h
      simp only [parseArrRest] at h
      split at h
      next r heq =>
        obtain ⟨hv, hr⟩ := (by simpa using h : Json.arr acc.reverse = v ∧ r = rest)
        subst hr
        obtain ⟨w, hw⟩ := skipWs_decomp cs
        refine ⟨w ++ [']'], ?_, lastGood_concat (by decide)⟩
        rw [hw, heq]
        simp [List.append_assoc]
      next r heq =>
        rcases hv : parseVal n (skipWs r) with _ | ⟨v1, r2⟩ <;> rw [hv] at h <;>
          simp only [] at h
        · exact absurd h (by simp)
        · obtain ⟨con1, hc1, hl1⟩ := ihV _ _ _ hv
          obtain ⟨con2, hc2, hl2⟩ := ihAR _ _ _ _ h
          obtain ⟨w0, hw0⟩ := skipWs_decomp cs
          obtain ⟨w1, hw1⟩ := skipWs_decomp r
          refine ⟨w0 ++ ',' :: (w1 ++ con1 ++ con2), ?_,
            lastGood_append (lastGood_cons (lastGood_append hl2))⟩
          rw [hw0, heq, show r = w1 ++ (con1 ++ (con2 ++ rest)) by rw [hw1, hc1, hc2]]
          simp [List.append_assoc]
      next => exact absurd h (by simp)
    · -- parseObjBody
      intro cs v rest h
      simp only [parseObjBody] at h
      split at h
      next r =>
        obtain ⟨hv, hr⟩ := (by simpa using h : Json.obj [] = v ∧ r = rest)
        subst hr
        exact ⟨['\x7d'], rfl, lastGood_single (by decide)⟩
      next r =>
        rcases hsb : parseStringBody (r.length + 1) [] r with _ | ⟨k, r1⟩ <;>
          rw [hsb] at h <;> simp only [] at h
        · exact absurd h (by simp)
        · split at h
          next r2 heq2 =>
            rcases hv : parseVal n (skipWs r2) with _ | ⟨v1, r3⟩ <;> rw [hv] at h <;>
              simp only [] at h
            · exact absurd h (by simp)
            · obtain ⟨conS, hcS, hlS⟩ := parseStringBody_consume _ _ _ _ _ hsb
              obtain ⟨conV, hcV, hlV⟩ := ihV _ _ _ hv
              obtain ⟨conR, hcR, hlR⟩ := ihOR _ _ _ _ h
              obtain ⟨w1, hw1⟩ := skipWs_decomp r1
              obtain ⟨w2, hw2⟩ := skipWs_decomp r2
              refine ⟨'"' :: (conS ++ (w1 ++ ':' :: (w2 ++ conV ++ conR))), ?_,
                lastGood_cons (lastGood_append (lastGood_append (lastGood_cons
                  (lastGood_append hlR))))⟩
              rw [show r = conS ++ (w1 ++ (':' :: (w2 ++ (conV ++ (conR ++ rest))))) by
                rw [hcS, show r1 = w1 ++ (':' :: (w2 ++ (conV ++ (conR ++ rest)))) by
                  rw [hw1, heq2, show r2 = w2 ++ (conV ++ (conR ++ rest)) by
                    rw [hw2, hcV, hcR]]]]
              simp [List.append_assoc]
          next => exact absurd h (by simp)
      next => exact absurd h (by simp)
    · -- parseObjRest
      intro acc cs v rest h
      simp only [parseObjRest] at h
      split at h
      next r heq =>
        obtain ⟨hv, hr⟩ := (by simpa using h : Json.obj acc.reverse = v ∧ r = rest)
        subst hr
        obtain ⟨w, hw⟩ := skipWs_decomp cs
        refine ⟨w ++ ['\x7d'], ?_, lastGood_concat (by decide)⟩
        rw [hw, heq]
        simp [List.append_assoc]
      next r heq =>
        split at h
        next r1 heq1 =>
          rcases hsb : parseStringBody (r1.length + 1) [] r1 with _ | ⟨k, r2⟩ <;>
            rw [hsb] at h <;> simp only [] at h
          · exact absurd h (by simp)
          · split at h
            next r3 heq3 =>
              rcases hv : parseVal n (skipWs r3) with _ | ⟨v1, r4⟩ <;> rw [hv] at h <;>
                simp only [] at h
              · exact absurd h (by simp)
              · obtain ⟨conS, hcS, hlS⟩ := parseStringBody_consume _ _ _ _ _ hsb
                obtain ⟨conV, hcV, hlV⟩ := ihV _ _ _ hv
                obtain ⟨conR, hcR, hlR⟩ := ihOR _ _ _ _ h
                obtain ⟨w0, hw0⟩ := skipWs_decomp cs
                obtain ⟨w1, hw1⟩ := skipWs_decomp r
                obtain ⟨w2, hw2⟩ := skipWs_decomp r2
                obtain ⟨w3, hw3⟩ := skipWs_decomp r3
                refine ⟨w0 ++ ',' :: (w1 ++ '"' :: (conS ++ (w2 ++ ':' :: (w3 ++ conV ++ conR)))), ?_,
                  lastGood_append (lastGood_cons (lastGood_append (lastGood_cons
                    (lastGood_append (lastGood_append (lastGood_cons
                      (lastGood_append hlR)))))))⟩
                rw [hw0, heq, show r = w1 ++ ('"' :: (conS ++ (w2 ++ (':' :: (w3 ++ (conV ++ (conR ++ rest))))))) by
                  rw [hw1, heq1, show r1 = conS ++ (w2 ++ (':' :: (w3 ++ (conV ++ (conR ++ rest))))) by
                    rw [hcS, show r2 = w2 ++ (':' :: (w3 ++ (conV ++ (conR ++ rest)))) by
                      rw [hw2, heq3, show r3 = w3 ++ (conV ++ (conR ++ rest)) by
                        rw [hw3, hcV, hcR]]]]]
                simp [List.append_assoc]
            next => exact absurd h (by simp)
        next => exact absurd h (by simp)
      next => exact absurd h (by simp)

/-- Dropping a fully-whitespace prefix continues into the tail. -/
theorem dropWhile_append_of_all {p : Char → Bool} {m l : List Char}
    (hm : ∀ x ∈ m, p x = true) : (m ++ l).dropWhile p = l.dropWhile p := by
  rw [List.dropWhile_append]
  simp [List.dropWhile_eq_nil_iff.mpr hm]

/-- A successful top-level parse means `parseVal` consumes the whole trimmed
input. -/
theorem parseJsonChars_success {cs0 : List Char} {v : Json}
    (h : parseJsonChars cs0 = some v) :
    parseVal ((trimRightWs (cs0.dropWhile jsonWs)).length + 1)
        (trimRightWs (cs0.dropWhile jsonWs)) = some (v, []) := by
  unfold parseJsonChars at h
  dsimp only [] at h
  rcases hp : parseVal ((trimRightWs (cs0.dropWhile jsonWs)).length + 1)
      (trimRightWs (cs0.dropWhile jsonWs)) with _ | ⟨v1, rest⟩ <;>
    rw [hp] at h <;> simp only [] at h
  · exact absurd h (by simp)
  · split_ifs at h with he
    · simp only [Option.some.injEq] at h
      rw [List.isEmpty_iff] at he
      rw [← h, ← he]

/-- The trimmed input of a successful parse starts at a value start
character and ends at a value end character. -/
theorem parseJsonChars_shape {cs0 : List Char} {v : Json}
    (h : parseJsonChars cs0 = some v) :
    (∃ c cs', trimRightWs (cs0.dropWhile jsonWs) = c :: cs' ∧ goodStartChar c = true)
    ∧ lastGood (trimRightWs (cs0.dropWhile jsonWs)) := by
  have h1 := parseJsonChars_success h
  obtain ⟨c, cs', hcs, hgs⟩ := parseVal_goodStart h1
  obtain ⟨con, hcon, hlg⟩ := (parse_consume _).1 _ _ _ h1
  rw [List.append_nil] at hcon
  exact ⟨⟨c, cs', hcs, hgs⟩, hcon ▸ hlg⟩

/-- `toList` distributes over string append. -/
theorem toList_append_eq (a b : String) : (a ++ b).toList = a.toList ++ b.toList :=
  String.data_append a b

/-- Fence stripping on a wrapped valid input yields the trimmed JSON text
followed by trailing whitespace. -/
theorem cleanChars_wrap {s : String} {v : Json} (h : parseJson s = some v) :
    cleanChars (wrapFence s).toList
      = trimRightWs (s.toList.dropWhile jsonWs)
        ++ ((s.toList.dropWhile jsonWs).reverse.takeWhile jsonWs).reverse ++ ['\n'] := by
  obtain ⟨⟨c, cs', hT, hgs⟩, _⟩ := parseJsonChars_shape (h : parseJsonChars s.toList = some v)
  have hwrap : (wrapFence s).toList
      = "```json".toList ++ ('\n' :: (s.toList ++ ('\n' :: "```".toList))) := by
    simp [wrapFence, toList_append_eq]
  have hlen7 : ("```json".toList).length = 7 := by decide
  have hdrop : ((wrapFence s).toList.drop 7) = '\n' :: (s.toList ++ ('\n' :: "```".toList)) := by
    rw [hwrap, ← hlen7]
    exact List.drop_left _ _
  have hpre : "```json".toList.isPrefixOf ((wrapFence s).toList) = true := by
    rw [hwrap]
    exact List.isPrefixOf_iff_prefix.mpr (List.prefix_append _ _)
  have hcs1 : ((wrapFence s).toList.drop 7).dropWhile jsRegexWs
      = trimRightWs (s.toList.dropWhile jsonWs)
        ++ (((s.toList.dropWhile jsonWs).reverse.takeWhile jsonWs).reverse
          ++ ('\n' :: "```".toList)) := by
    rw [hdrop]
    rw [List.dropWhile_cons_of_pos (by decide)]
    conv_lhs =>
      rw [← List.takeWhile_append_dropWhile jsonWs s.toList, List.append_assoc]
    rw [dropWhile_append_of_all
      (fun x hx => jsonWs_imp_jsRegexWs (List.mem_takeWhile_imp hx))]
    conv_lhs =>
      rw [trimRightWs_decomp (s.toList.dropWhile jsonWs), List.append_assoc]
    have hneg : jsRegexWs c = false := goodStartChar_not_jsRegexWs hgs
    rw [hT]
    simp [hneg]
  have hY : ((wrapFence s).toList.drop 7).dropWhile jsRegexWs
      = (trimRightWs (s.toList.dropWhile jsonWs)
          ++ ((s.toList.dropWhile jsonWs).reverse.takeWhile jsonWs).reverse ++ ['\n'])
        ++ "```".toList := by
    rw [hcs1]
    simp [List.append_assoc]
  have hsuf : "```".toList.isSuffixOf (((wrapFence s).toList.drop 7).dropWhile jsRegexWs)
      = true := by
    rw [hY]
    exact List.isSuffixOf_iff_suffix.mpr (List.suffix_append _ _)
  unfold cleanChars
  rw [hpre]
  simp only [if_true]
  rw [hsuf]
  simp only [if_true]
  rw [hY]
  have hlen : ((trimRightWs (s.toList.dropWhile jsonWs)
      ++ ((s.toList.dropWhile jsonWs).reverse.takeWhile jsonWs).reverse ++ ['\n'])
        ++ "```".toList).length - 3
      = (trimRightWs (s.toList.dropWhile jsonWs)
        ++ ((s.toList.dropWhile jsonWs).reverse.takeWhile jsonWs).reverse ++ ['\n']).length := by
    simp
    omega
  rw [hlen]
  exact List.take_left _ _

/-- Parsing the fence-stripped wrapped text yields the same value. -/
theorem safeJsonParse_wrap {s : String} {v : Json} (h : parseJson s = some v) :
    safeJsonParse (wrapFence s) = some v := by
  obtain ⟨⟨c, cs', hT, hgs⟩, _⟩ :=
    parseJsonChars_shape (h : parseJsonChars s.toList = some v)
  have hsucc := parseJsonChars_success (h : parseJsonChars s.toList = some v)
  unfold safeJsonParse
  rw [cleanChars_wrap h]
  have hwsAll : ∀ x ∈ ((s.toList.dropWhile jsonWs).reverse.takeWhile jsonWs).reverse
      ++ ['\n'], jsonWs x = true := by
    intro x hx
    rcases List.mem_append.mp hx with hx | hx
    · exact trimRightWs_tail_ws _ x hx
    · simp only [List.mem_singleton] at hx
      subst hx
      decide
  have hne : jsonWs c = false := goodStartChar_not_jsonWs hgs
  unfold parseJsonChars
  dsimp only []
  have hdrop : ((trimRightWs (s.toList.dropWhile jsonWs)
      ++ ((s.toList.dropWhile jsonWs).reverse.takeWhile jsonWs).reverse
      ++ ['\n']).dropWhile jsonWs)
      = trimRightWs (s.toList.dropWhile jsonWs)
        ++ ((s.toList.dropWhile jsonWs).reverse.takeWhile jsonWs).reverse ++ ['\n'] := by
    rw [hT]
    simp [hne]
  have htrim : trimRightWs (trimRightWs (s.toList.dropWhile jsonWs)
      ++ ((s.toList.dropWhile jsonWs).reverse.takeWhile jsonWs).reverse ++ ['\n'])
      = trimRightWs (s.toList.dropWhile jsonWs) := by
    rw [List.append_assoc, trimRightWs_append_ws hwsAll, trimRightWs_idem]
  rw [hdrop, htrim, hsucc]
  simp

/-- Text that parses as JSON neither starts with a fence marker nor ends in
backticks, so fence stripping leaves it unchanged. -/
theorem cleanChars_id {s : String} {v : Json} (h : parseJson s = some v) :
    cleanChars s.toList = s.toList := by
  obtain ⟨⟨c, cs', hT, hgs⟩, hlg⟩ :=
    parseJsonChars_shape (h : parseJsonChars s.toList = some v)
  rcases hy : ("```".toList).getLast? with _ | y
  · exact absurd hy (by decide)
  have hyws : jsonWs y = false := by
    have h0 : jsonWs ((("```".toList).getLast?).getD ' ') = false := by decide
    rw [hy] at h0
    simpa using h0
  have hyge : goodEndChar y = false := by
    have h0 : goodEndChar ((("```".toList).getLast?).getD ' ') = false := by decide
    rw [hy] at h0
    simpa using h0
  have hpre : "```json".toList.isPrefixOf s.toList = false := by
    by_contra hb
    rw [Bool.not_eq_false] at hb
    obtain ⟨t, ht⟩ := List.isPrefixOf_iff_prefix.mp hb
    rcases hz : ("```json".toList).head? with _ | z
    · exact absurd hz (by decide)
    have hz2 : jsonWs z = false ∧ goodStartChar z = false := by
      have h0 : jsonWs ((("```json".toList).head?).getD ' ') = false
          ∧ goodStartChar ((("```json".toList).head?).getD ' ') = false := by decide
      rw [hz] at h0
      simpa using h0
    have hheadA : s.toList.head? = some z := by
      rw [← ht, List.head?_append_of_ne_nil _ (by decide), hz]
    have hAd : s.toList = s.toList.takeWhile jsonWs
        ++ (c :: (cs' ++ ((s.toList.dropWhile jsonWs).reverse.takeWhile jsonWs).reverse)) := by
      conv_lhs => rw [← List.takeWhile_append_dropWhile jsonWs s.toList,
        trimRightWs_decomp (s.toList.dropWhile jsonWs)]
      rw [hT]
      simp [List.append_assoc]
    rcases hw : s.toList.takeWhile jsonWs with _ | ⟨w0, wt⟩
    · rw [hw] at hAd
      rw [hAd] at hheadA
      simp only [List.nil_append, List.head?_cons, Option.some.injEq] at hheadA
      rw [← hheadA] at hz2
      rw [hz2.2] at hgs
      exact absurd hgs (by simp)
    · rw [hw] at hAd
      rw [hAd] at hheadA
      simp only [List.cons_append, List.head?_cons, Option.some.injEq] at hheadA
      have hw0 : jsonWs w0 = true :=
        List.mem_takeWhile_imp (by rw [hw]; exact List.mem_cons_self _ _)
      rw [hheadA, hz2.1] at hw0
      exact absurd hw0 (by simp)
  have hsufGen : ∀ u : List Char,
      trimRightWs (s.toList.dropWhile jsonWs) = u ++ "```".toList → False := by
    intro u hTeq
    obtain ⟨g, hg1, hg2⟩ := hlg
    rw [hTeq, getLast?_append_right hy] at hg1
    simp only [Option.some.injEq] at hg1
    rw [← hg1] at hg2
    rw [hyge] at hg2
    exact absurd hg2 (by simp)
  have hsuf1 : "```".toList.isSuffixOf s.toList = false := by
    by_contra hb
    rw [Bool.not_eq_false] at hb
    obtain ⟨t, ht⟩ := List.isSuffixOf_iff_suffix.mp hb
    have hRform : ∃ u, s.toList.dropWhile jsonWs = u ++ "```".toList := by
      rw [← ht, List.dropWhile_append]
      by_cases he : (t.dropWhile jsonWs).isEmpty
      · rw [if_pos he]
        exact ⟨[], by rw [List.nil_append]; decide⟩
      · rw [if_neg he]
        exact ⟨t.dropWhile jsonWs, rfl⟩
    obtain ⟨u, hu⟩ := hRform
    have hTeq : trimRightWs (s.toList.dropWhile jsonWs) = u ++ "```".toList := by
      rw [hu]
      exact trimRightWs_eq_self (getLast?_append_right hy) hyws
    exact hsufGen u hTeq
  have hsuf2 : ("```" ++ "
").toList.isSuffixOf s.toList = false := by
    by_contra hb
    rw [Bool.not_eq_false] at hb
    obtain ⟨t, ht⟩ := List.isSuffixOf_iff_suffix.mp hb
    have hBB : ("```" ++ "
").toList = "```".toList ++ ['\n'] := by decide
    have ht2 : (t ++ "```".toList) ++ ['\n'] = s.toList := by
      rw [← ht, hBB]
      simp [List.append_assoc]
    have hRform : ∃ u, s.toList.dropWhile jsonWs = (u ++ "```".toList) ++ ['\n'] := by
      rw [← ht2, List.dropWhile_append]
      by_cases he : ((t ++ "```".toList).dropWhile jsonWs).isEmpty
      · exfalso
        rw [List.isEmpty_iff] at he
        have hall := List.dropWhile_eq_nil_iff.mp he
        have hfalse : ("```".toList).all jsonWs = true :=
          List.all_eq_true.mpr (fun x hx => hall x (List.mem_append_right _ hx))
        exact absurd hfalse (by decide)
      · rw [if_neg he]
        rw [List.dropWhile_append]
        by_cases he2 : (t.dropWhile jsonWs).isEmpty
        · rw [if_pos he2]
          exact ⟨[], by rw [List.nil_append]; decide⟩
        · rw [if_neg he2]
          exact ⟨t.dropWhile jsonWs, rfl⟩
    obtain ⟨u, hu⟩ := hRform
    have hTeq : trimRightWs (s.toList.dropWhile jsonWs) = u ++ "```".toList := by
      rw [hu, trimRightWs_append_ws (by intro x hx; simp at hx; subst hx; decide)]
      exact trimRightWs_eq_self (getLast?_append_right hy) hyws
    exact hsufGen u hTeq
  unfold cleanChars
  simp only [hpre, Bool.false_eq_true, if_false, hsuf1, hsuf2]

/-- Claim C7: for text holding valid JSON, the normalizer applied to the
fence-wrapped text returns the same parsed value as the normalizer applied
to the unwrapped text, and both agree with a plain parse. -/
theorem fence_roundtrip :
    ∀ (s : String) (v : Json), parseJson s = some v →
      safeJsonParse (wrapFence s) = safeJsonParse s ∧ safeJsonParse s = some v := by
  intro s v h
  have hB : safeJsonParse s = some v := by
    unfold safeJsonParse
    rw [cleanChars_id h]
    exact h
  exact ⟨by rw [safeJsonParse_wrap h, hB], hB⟩

/-- Concrete instantiation of `fence_roundtrip` at a small JSON object. -/
theorem fence_roundtrip_witness :
    safeJsonParse (wrapFence "\x7b\"a\": [1, true]\x7d")
        = safeJsonParse "\x7b\"a\": [1, true]\x7d"
    ∧ safeJsonParse "\x7b\"a\": [1, true]\x7d"
        = some (.obj [("a", .arr [.num "1", .bool true])]) :=
  fence_roundtrip "\x7b\"a\": [1, true]\x7d" (.obj [("a", .arr [.num "1", .bool true])]) rfl
